/-
  Verification of the HelenOS xHCI host controller driver against its
  natural-language specification.

  The development shallowly embeds the driver code:
    - uspace/drv/bus/usb/xhci/trb_ring.c   (TRB ring enqueue, event ring dequeue)
    - uspace/drv/bus/usb/xhci/transfers.c  (TD construction, transfer events, scheduling)
    - uspace/drv/bus/usb/xhci/rh.c         (root hub port change handling)
    - uspace/drv/bus/usb/xhci/bus.c        (device enumeration and removal)

  Machine integers are modelled as Nat; the 16-byte TRB is modelled as a record
  whose fields are exactly those accessed through the hw_struct/trb.h macros.
  Fallible C functions return errno-tagged results; traces of externally
  visible operations (commands, doorbells, register writes) are modelled as
  explicit action lists.
-/
import Mathlib

set_option maxHeartbeats 1000000
set_option maxRecDepth 100000

/-! ## Generic list helpers (C array reads and writes) -/

/-- Read element i of a list, with an explicit default (C array read). -/
def list_nth {α : Type} : List α → Nat → α → α
  | [], _, d => d
  | x :: _, 0, _ => x
  | _ :: xs, i + 1, d => list_nth xs i d

/-- Write element i of a list (C array write); out of range writes are dropped. -/
def list_upd {α : Type} : List α → Nat → α → List α
  | [], _, _ => []
  | _ :: xs, 0, a => a :: xs
  | x :: xs, i + 1, a => x :: list_upd xs i a

/-! ## Error codes

HelenOS errno values; modelled as a closed inductive, only distinctness of
codes matters to the driver logic. -/

inductive errno : Type
  | EOK
  | EAGAIN
  | ENOENT
  | EINVAL
  | ENOMEM
  | ENOTSUP
  | ENAK
  | ESTALL
  | EBUSY
deriving DecidableEq

open errno

/-! ## TRBs

The 16-byte Transfer Request Block (64-bit parameter, 32-bit status, 32-bit
control) is modelled field-wise: each record field is one of the bit fields
accessed by the hw_struct/trb.h accessor macros used in the embedded code. -/

structure xhci_trb where
  /-- 64-bit parameter dword (data buffer pointer / event source pointer). -/
  parameter : Nat := 0
  /-- status dword, bits 23:0 - residual transfer length in transfer events. -/
  transfer_length : Nat := 0
  /-- status dword, bits 31:24 - completion code in events. -/
  completion_code : Nat := 0
  /-- control bit 0 - the cycle bit. -/
  cycle : Bool := false
  /-- control bit 1 on Link TRBs - Toggle Cycle. -/
  tc : Bool := false
  /-- control bit 4 - chain bit. -/
  chain : Bool := false
  /-- control bit 5 - interrupt on completion. -/
  ioc : Bool := false
  /-- control bit 6 - immediate data. -/
  idt : Bool := false
  /-- control bits 15:10 - the TRB type tag. -/
  trb_type : Nat := 0
  /-- control bits 17:16 - transfer type of a Setup Stage TRB. -/
  trt : Nat := 0
  /-- control bit 16 - direction of a Data or Status Stage TRB. -/
  dir : Nat := 0
  /-- status bits 16:0 - TRB transfer length of transfer TRBs. -/
  xfer_len : Nat := 0
  /-- status bits 21:17 - TD size. -/
  td_size : Nat := 0
  /-- event control bits 31:24 - slot id of an event TRB. -/
  slot_id : Nat := 0
  /-- event control bits 20:16 - endpoint DCI of a transfer event TRB. -/
  ep_dci : Nat := 0
  /-- parameter bits 15:0 of a Setup Stage TRB - bmRequestType and bRequest. -/
  setup_bmRequestType : Nat := 0
  setup_bRequest : Nat := 0
  setup_wValue : Nat := 0
  setup_wIndex : Nat := 0
  setup_wLength : Nat := 0
deriving DecidableEq

/-- The zero TRB produced by xhci_trb_clean (memset to 0). -/
def xhci_trb_clean : xhci_trb := {}

/-- Modelled from the spec: TRB type tags (the closed enumeration of section 3
of the spec; hw_struct/trb.h is not under src/). -/
def XHCI_TRB_TYPE_NORMAL : Nat := 1
def XHCI_TRB_TYPE_SETUP_STAGE : Nat := 2
def XHCI_TRB_TYPE_DATA_STAGE : Nat := 3
def XHCI_TRB_TYPE_STATUS_STAGE : Nat := 4
def XHCI_TRB_TYPE_LINK : Nat := 6

/-- Modelled from the spec: the Success completion code of the xHCI
enumeration (hw_struct/trb.h is not under src/). -/
def XHCI_TRBC_SUCCESS : Nat := 1

/-! ## transfers.c: stage direction and transfer type -/

/-- stage_dir_flag_t from transfers.c. -/
def STAGE_OUT : Nat := 0
def STAGE_IN : Nat := 1

/-- data_stage_type_t from transfers.c. -/
def DATA_STAGE_NO : Nat := 0
def DATA_STAGE_OUT : Nat := 2
def DATA_STAGE_IN : Nat := 3

/-- REQUEST_TYPE_IS_DEVICE_TO_HOST from transfers.c: bit 7 of bmRequestType. -/
def REQUEST_TYPE_IS_DEVICE_TO_HOST (rq : Nat) : Bool := rq / 128 % 2 = 1

/-- get_status_direction_flag from transfers.c (the trb argument is unused in
the source and omitted here): direction of the Status Stage TRB. -/
def get_status_direction_flag (bmRequestType wLength : Nat) : Nat :=
  if REQUEST_TYPE_IS_DEVICE_TO_HOST bmRequestType ∧ wLength > 0 then STAGE_OUT
  else STAGE_IN

/-- get_transfer_type from transfers.c (the trb argument is unused in the
source and omitted here): the TRT field of the Setup Stage TRB.  Note the
source returns DATA_STAGE_NO, not DATA_STAGE_OUT, on the host-to-device
branch. -/
def get_transfer_type (bmRequestType wLength : Nat) : Nat :=
  if wLength = 0 then DATA_STAGE_NO
  else if REQUEST_TYPE_IS_DEVICE_TO_HOST bmRequestType then DATA_STAGE_IN
  else DATA_STAGE_NO

/-- usb_device_request_setup_packet_t: the 8-byte setup packet. -/
structure setup_packet where
  request_type : Nat := 0
  request : Nat := 0
  value : Nat := 0
  index : Nat := 0
  length : Nat := 0
deriving DecidableEq

/-- Modelled from the spec: SETUP_REQUEST_TYPE_GET_TYPE of usb/request.h
(not under src/) - bits 6:5 of bmRequestType select the request type. -/
def SETUP_REQUEST_TYPE_GET_TYPE (rt : Nat) : Nat := rt / 32 % 4

/-- Modelled from the spec: standard request type and the Set-Configuration /
Set-Interface request codes of usb/request.h (not under src/). -/
def USB_REQUEST_TYPE_STANDARD : Nat := 0
def USB_DEVREQ_SET_CONFIGURATION : Nat := 9
def USB_DEVREQ_SET_INTERFACE : Nat := 11

/-- configure_endpoint_needed from transfers.c. -/
def configure_endpoint_needed (setup : setup_packet) : Bool :=
  SETUP_REQUEST_TYPE_GET_TYPE setup.request_type = USB_REQUEST_TYPE_STANDARD ∧
  (setup.request = USB_DEVREQ_SET_CONFIGURATION ∨
   setup.request = USB_DEVREQ_SET_INTERFACE)

/-! ## transfers.c: schedule_control

The externally visible operations of schedule_control are modelled as a
trace: the optional Configure Endpoint (configure device) command and the
final TD enqueue on the transfer ring. -/

inductive ctrl_action : Type
  | configure_device (slot_id : Nat)
  | ring_enqueue (td : List xhci_trb)
deriving DecidableEq

/-- The Setup Stage TRB built by schedule_control. -/
def setup_stage_trb (setup : setup_packet) : xhci_trb :=
  { xhci_trb_clean with
    setup_wValue := setup.value
    setup_wLength := setup.length
    setup_wIndex := setup.index
    setup_bRequest := setup.request
    setup_bmRequestType := setup.request_type
    xfer_len := 8
    idt := true
    trb_type := XHCI_TRB_TYPE_SETUP_STAGE
    trt := get_transfer_type setup.request_type setup.length }

/-- The Data Stage TRB built by schedule_control (only when wLength > 0). -/
def data_stage_trb (setup : setup_packet) (buffer_size hc_buffer_phys : Nat) :
    xhci_trb :=
  { xhci_trb_clean with
    parameter := hc_buffer_phys
    xfer_len := buffer_size
    td_size := 1
    trb_type := XHCI_TRB_TYPE_DATA_STAGE
    dir := if REQUEST_TYPE_IS_DEVICE_TO_HOST setup.request_type then STAGE_IN
           else STAGE_OUT }

/-- The Status Stage TRB built by schedule_control. -/
def status_stage_trb (setup : setup_packet) : xhci_trb :=
  { xhci_trb_clean with
    ioc := true
    trb_type := XHCI_TRB_TYPE_STATUS_STAGE
    dir := get_status_direction_flag setup.request_type setup.length }

/-- The TD assembled by schedule_control: Setup Stage, then a Data Stage iff
wLength > 0, then Status Stage. -/
def control_td (setup : setup_packet) (buffer_size hc_buffer_phys : Nat) :
    List xhci_trb :=
  setup_stage_trb setup ::
    (if setup.length > 0 then [data_stage_trb setup buffer_size hc_buffer_phys]
     else []) ++ [status_stage_trb setup]

/-- schedule_control from transfers.c, as an errno result plus the trace of
the Configure Endpoint command and the ring enqueue.  configure_result and
ring_result stand for the outcomes of hc_configure_device and
xhci_trb_ring_enqueue_multiple. -/
def schedule_control (setup : setup_packet) (buffer_size hc_buffer_phys : Nat)
    (slot_id : Nat) (configure_result ring_result : errno) :
    errno × List ctrl_action :=
  let td := control_td setup buffer_size hc_buffer_phys
  if configure_endpoint_needed setup then
    if configure_result ≠ EOK then
      (configure_result, [ctrl_action.configure_device slot_id])
    else
      (ring_result,
        [ctrl_action.configure_device slot_id, ctrl_action.ring_enqueue td])
  else
    (ring_result, [ctrl_action.ring_enqueue td])

/-! ## rh.c: root hub and port monitor -/

/-- Externally visible root hub operations. -/
inductive rh_action : Type
  | setup_device (port : Nat)
  | disconnect_device (port : Nat)
  | reset_port (port : Nat)
deriving DecidableEq

/-- The PORTSC register of one root hub port, modelled field-wise.  Modelled
from the spec: the change bits (CSC, PEC, WRC, OCC, PRC, PLC, CEC) are
write-1-to-clear (hw_struct/regs.h is not under src/). -/
structure xhci_portsc where
  /-- CCS - current connect status. -/
  ccs : Bool := false
  /-- PR - port reset in progress (writing 1 starts a reset). -/
  pr : Bool := false
  /-- PLS - port link state. -/
  pls : Nat := 0
  csc : Bool := false
  pec : Bool := false
  wrc : Bool := false
  occ : Bool := false
  prc : Bool := false
  plc : Bool := false
  cec : Bool := false
deriving DecidableEq

/-- xhci_rh_reset_port from rh.c: write PR = 1 into PORTSC. -/
def xhci_rh_reset_port (p : xhci_portsc) : xhci_portsc :=
  { p with pr := true }

/-- handle_connected_device from rh.c.  speed_major is the major revision of
the port speed looked up via xhci_rh_get_port_speed; setup_result stands for
the outcome of rh_setup_device (which starts device enumeration).  Returns
the errno result, the updated PORTSC and the visible actions. -/
def handle_connected_device (speed_major : Nat) (port : Nat)
    (setup_result : errno) (p : xhci_portsc) :
    errno × xhci_portsc × List rh_action :=
  if speed_major = 3 then
    if p.pls = 0 then
      (setup_result, p, [rh_action.setup_device port])
    else if p.pls = 5 then
      (EAGAIN, p, [])
    else
      (EINVAL, p, [])
  else
    (EOK, xhci_rh_reset_port p, [rh_action.reset_port port])

/-- Acknowledge all set change bits of a PORTSC: the loop body of
xhci_rh_handle_port_change reads the register and writes the read value
back, which clears every set write-1-to-clear change bit. -/
def portsc_ack (p : xhci_portsc) : xhci_portsc :=
  { p with csc := false, pec := false, wrc := false, occ := false,
           prc := false, plc := false, cec := false }

/-- One iteration of the port loop of xhci_rh_handle_port_change from rh.c:
acknowledge all change bits, then dispatch on the snapshot of the bits. -/
def port_change_step (speed_major : Nat) (port : Nat) (setup_result : errno)
    (p : xhci_portsc) : xhci_portsc × List rh_action :=
  let ack := portsc_ack p
  let connected_part :=
    if p.csc then
      if p.ccs then
        let r := handle_connected_device speed_major port setup_result ack
        (r.2.1, r.2.2)
      else
        (ack, [rh_action.disconnect_device port])
    else
      (ack, [])
  let reset_part :=
    if p.prc ∧ speed_major ≠ 3 then [rh_action.setup_device port] else []
  (connected_part.1, connected_part.2 ++ reset_part)

/-- Per-port inputs of the root hub handler: speed (from the PSIV table),
the rh_setup_device outcome, and the PORTSC register. -/
structure rh_port : Type where
  speed_major : Nat := 0
  setup_result : errno := EOK
  portsc : xhci_portsc := {}
deriving DecidableEq

/-- The port loop of xhci_rh_handle_port_change, over ports i, i+1, ... -/
def port_change_go : Nat → List rh_port → List xhci_portsc × List rh_action
  | _, [] => ([], [])
  | i, p :: rest =>
    let step := port_change_step p.speed_major i p.setup_result p.portsc
    let tail := port_change_go (i + 1) rest
    (step.1 :: tail.1, step.2 ++ tail.2)

/-- xhci_rh_handle_port_change from rh.c: scan ports 1 .. max_ports.  The
list holds the state of ports 1 .. max_ports in order. -/
def xhci_rh_handle_port_change (ports : List rh_port) :
    List xhci_portsc × List rh_action :=
  port_change_go 1 ports

/-- xhci_rh_handle_port_status_change_event from rh.c: the port named in the
event TRB is only logged; all ports are scanned. -/
def xhci_rh_handle_port_status_change_event (trb : xhci_trb)
    (ports : List rh_port) : List xhci_portsc × List rh_action :=
  xhci_rh_handle_port_change ports

/-! ## transfers.c: xhci_handle_transfer_event -/

/-- usb_transfer_batch_t, restricted to the fields the handler touches. -/
structure usb_batch where
  buffer_size : Nat := 0
  transfered_size : Nat := 0
  /-- The caller-owned buffer, byte-wise. -/
  buffer : List Nat := []
  /-- batch->dir == USB_DIRECTION_IN (device-to-host). -/
  dir_in : Bool := false
  error : errno := EOK
deriving DecidableEq

/-- Endpoint state touched by the transfer event handler. -/
structure xhci_endpoint_m where
  /-- ring.dequeue - raw dequeue pointer mirrored from completion events. -/
  ring_dequeue : Nat := 0
  /-- base.active_batch - the at most one active transfer. -/
  active_batch : Option usb_batch := none
  /-- active_transfer.hc_buffer - the driver-owned bounce buffer, byte-wise. -/
  hc_buffer : List Nat := []
deriving DecidableEq

/-- Device state touched by the transfer event handler; endpoints are indexed
by endpoint number. -/
structure xhci_device_m where
  slot_id : Nat := 0
  online : Bool := true
  endpoints : List (Option xhci_endpoint_m) := []
deriving DecidableEq

/-- Controller state touched by the transfer event handler. -/
structure hc_state_m where
  devices_by_slot : List (Option xhci_device_m) := []
deriving DecidableEq

/-- Visible steps of the transfer event handler: the endpoint guard, the
deactivation, the bounce buffer copy and the batch finalization. -/
inductive ev_action : Type
  | lock
  | unlock
  | deactivate
  | memcpy (bytes : List Nat)
  | finish (b : usb_batch)
deriving DecidableEq

/-- Write one endpoint back into the controller state. -/
def hc_upd_ep (hc : hc_state_m) (slot ep_num : Nat) (dev : xhci_device_m)
    (ep : xhci_endpoint_m) : hc_state_m :=
  let dev' := { dev with endpoints := list_upd dev.endpoints ep_num (some ep) }
  { hc with devices_by_slot := list_upd hc.devices_by_slot slot (some dev') }

/-- xhci_handle_transfer_event from transfers.c. -/
def xhci_handle_transfer_event (hc : hc_state_m) (trb : xhci_trb) :
    errno × hc_state_m × List ev_action :=
  let addr := trb.parameter
  match list_nth hc.devices_by_slot trb.slot_id none with
  | none => (ENOENT, hc, [])
  | some dev =>
    let ep_num := trb.ep_dci / 2
    match list_nth dev.endpoints ep_num none with
    | none => (ENOENT, hc, [])
    | some ep =>
      let ep1 := { ep with ring_dequeue := addr }
      match ep1.active_batch with
      | none =>
        (ENOENT, hc_upd_ep hc trb.slot_id ep_num dev ep1,
         [ev_action.lock, ev_action.unlock])
      | some batch =>
        let b1 := { batch with
          error := if trb.completion_code = XHCI_TRBC_SUCCESS then EOK
                   else ENAK,
          transfered_size := batch.buffer_size - trb.transfer_length }
        let ep2 := { ep1 with active_batch := none }
        let copied :=
          if b1.dir_in then
            some (List.take b1.transfered_size ep.hc_buffer)
          else none
        let b2 :=
          match copied with
          | some bytes =>
            { b1 with buffer := bytes ++ List.drop b1.transfered_size b1.buffer }
          | none => b1
        (EOK, hc_upd_ep hc trb.slot_id ep_num dev ep2,
         [ev_action.lock, ev_action.deactivate, ev_action.unlock] ++
           (match copied with
            | some bytes => [ev_action.memcpy bytes]
            | none => []) ++
           [ev_action.finish b2])

/-! ## transfers.c: xhci_transfer_schedule -/

/-- Visible steps of xhci_transfer_schedule. -/
inductive sched_action : Type
  | activate
  | run_handler
  | deactivate
  | ring_doorbell (slot target : Nat)
deriving DecidableEq

/-- xhci_transfer_schedule from transfers.c.  The per-type handler
(schedule_control / schedule_bulk / ...) outcome is handler_result; alloc_ok
stands for the malloc32 outcome, doorbell_result for hc_ring_doorbell. -/
def xhci_transfer_schedule (online : Bool) (ep_num segment_count : Nat)
    (buffer_size : Nat) (alloc_ok : Bool) (handler_result : errno)
    (slot_id ep_index : Nat) (doorbell_result : errno) :
    errno × List sched_action :=
  if ¬online ∧ ep_num > 0 then (EAGAIN, [])
  else if segment_count = 0 then (EINVAL, [])
  else if buffer_size > 0 ∧ ¬alloc_ok then (ENOMEM, [])
  else if handler_result ≠ EOK then
    (handler_result,
     [sched_action.activate, sched_action.run_handler, sched_action.deactivate])
  else
    (doorbell_result,
     [sched_action.activate, sched_action.run_handler,
      sched_action.ring_doorbell slot_id (ep_index + 1)])

/-! ## bus.c: route string derivation (xhci_bus_enumerate_device) -/

/-- The route string calculation of xhci_bus_enumerate_device from bus.c:
given the parent hub tier, route string and root hub port, and the device
port, produce (tier, route_str, rh_port) of the new device; dev_rh_port is
the device's rh_port field before the calculation. -/
def xhci_bus_enumerate_route (parent_tier parent_route parent_rh_port : Nat)
    (port : Nat) (dev_rh_port : Nat) : Nat × Nat × Nat :=
  let tier := parent_tier + 1
  let route := parent_route
  if 2 ≤ tier then
    (tier, route ||| ((port &&& 0xf) <<< (4 * (tier - 2))), parent_rh_port)
  else
    (tier, route, dev_rh_port)

/-! ## bus.c: device lifecycle and DCBAA (xhci_bus_remove_device) -/

inductive dev_state : Type
  | Addressed
  | Configured
deriving DecidableEq

/-- A live device as tracked by the bus: its slot and lifecycle state. -/
structure lc_device where
  slot_id : Nat := 0
  state : dev_state := dev_state.Addressed
  online : Bool := false
deriving DecidableEq

/-- Bus-level state: the DCBAA and the devices_by_slot registry. -/
structure lc_state where
  dcbaa : List Nat := []
  devices_by_slot : List (Option lc_device) := []
deriving DecidableEq

/-- The addressing step of xhci_bus_enumerate_device from bus.c.  Modelled
from the spec: hc_address_device (hc.c is not under src/) writes the slot's
device context into the DCBAA and moves the device to the Addressed state;
bus.c then installs the device under devices_by_slot[slot_id]. -/
def lc_enumerate (s : lc_state) (slot ctx_phys : Nat) : lc_state :=
  { dcbaa := list_upd s.dcbaa slot ctx_phys,
    devices_by_slot := list_upd s.devices_by_slot slot
      (some { slot_id := slot, state := dev_state.Addressed, online := false }) }

/-- online_device from bus.c.  Modelled from the spec: hc_configure_device
(hc.c is not under src/) transitions the slot to the Configured state; the
online flag is then set. -/
def lc_online (s : lc_state) (slot : Nat) : lc_state :=
  match list_nth s.devices_by_slot slot none with
  | none => s
  | some d =>
    let d' := { d with state := dev_state.Configured, online := true }
    { s with devices_by_slot := list_upd s.devices_by_slot slot (some d') }

/-- xhci_bus_remove_device from bus.c: the device goes offline, the slot is
disabled, the DCBAA entry is cleared and the registry entry is reset. -/
def xhci_bus_remove_device (s : lc_state) (slot : Nat) : lc_state :=
  { dcbaa := list_upd s.dcbaa slot 0,
    devices_by_slot := list_upd s.devices_by_slot slot none }

/-- The DCBAA invariant of the spec: an entry is non-zero exactly when a
device with that slot id is in the Addressed or Configured state. -/
def dcbaa_invariant (s : lc_state) : Prop :=
  s.dcbaa.length = s.devices_by_slot.length ∧
  ∀ slot < s.dcbaa.length,
    (list_nth s.dcbaa slot 0 ≠ 0 ↔
      ∃ d, list_nth s.devices_by_slot slot none = some d ∧
        (d.state = dev_state.Addressed ∨ d.state = dev_state.Configured))

/-! ## trb_ring.c: the producer TRB ring -/

/-- Number of TRBs in one page-sized segment:
(PAGE_SIZE - SEGMENT_HEADER_SIZE) / sizeof(xhci_trb_t)
= (4096 - 24) / 16 = 254. -/
def SEGMENT_TRB_COUNT : Nat := 254

/-- sizeof(xhci_trb_t). -/
def TRB_SIZE : Nat := 16

/-- One ring segment: its TRB storage and its fixed physical address. -/
structure trb_segment where
  trbs : List xhci_trb := []
  phys : Nat := 0
deriving DecidableEq

/-- The default segment used for out-of-range array reads. -/
def empty_segment : trb_segment := {}

/-- xhci_trb_ring_t: ordered segment list, enqueue cursor (segment index and
TRB index), producer cycle state and the mirrored dequeue pointer. -/
structure xhci_trb_ring where
  segments : List trb_segment := []
  enqueue_segment : Nat := 0
  enqueue_trb : Nat := 0
  dequeue : Nat := 0
  pcs : Bool := true
deriving DecidableEq

/-- The segment the enqueue cursor points into. -/
def enq_segment (r : xhci_trb_ring) : trb_segment :=
  list_nth r.segments r.enqueue_segment empty_segment

/-- The TRB the enqueue pointer targets (dereference of ring->enqueue_trb). -/
def enq_trb_content (r : xhci_trb_ring) : xhci_trb :=
  list_nth (enq_segment r).trbs r.enqueue_trb xhci_trb_clean

/-- trb_ring_resolve_link from trb_ring.c: move the enqueue cursor to the
start of the next segment, wrapping to the first. -/
def trb_ring_resolve_link (r : xhci_trb_ring) : xhci_trb_ring :=
  let next :=
    if r.enqueue_segment + 1 < r.segments.length then r.enqueue_segment + 1
    else 0
  { r with enqueue_segment := next, enqueue_trb := 0 }

/-- trb_ring_enqueue_phys from trb_ring.c. -/
def trb_ring_enqueue_phys (r : xhci_trb_ring) : Nat :=
  (enq_segment r).phys + r.enqueue_trb * TRB_SIZE

/-- One advance of the enqueue pointer as performed by both loops of
xhci_trb_ring_enqueue: increment, then resolve a Link TRB if the new
position holds one. -/
def advance_enqueue (r : xhci_trb_ring) : xhci_trb_ring :=
  let r1 := { r with enqueue_trb := r.enqueue_trb + 1 }
  if (enq_trb_content r1).trb_type = XHCI_TRB_TYPE_LINK then
    trb_ring_resolve_link r1
  else r1

/-- The dry-run loop of xhci_trb_ring_enqueue: advance over the TD without
writing; none when the advanced enqueue position reaches the dequeue
pointer.  The loop runs while the current TD TRB is chained. -/
def enqueue_dry_run (r : xhci_trb_ring) : List xhci_trb → Option xhci_trb_ring
  | [] => some r
  | trb :: rest =>
    let r1 := advance_enqueue r
    if trb_ring_enqueue_phys r1 = r1.dequeue then none
    else if trb.chain then enqueue_dry_run r1 rest
    else some r1

/-- Write a TRB at a slot of the ring (xhci_trb_copy into the ring). -/
def ring_write_trb (r : xhci_trb_ring) (si ti : Nat) (t : xhci_trb) :
    xhci_trb_ring :=
  let seg := list_nth r.segments si empty_segment
  let seg' := { seg with trbs := list_upd seg.trbs ti t }
  { r with segments := list_upd r.segments si seg' }

/-- One iteration of the copy loop of xhci_trb_ring_enqueue: write the TD
TRB with its cycle bit set to PCS, advance; when the new position holds a
Link TRB, set its cycle to PCS, toggle PCS if its TC flag is set, and
follow the link. -/
def replay_step (r : xhci_trb_ring) (trb : xhci_trb) : xhci_trb_ring :=
  let r1 := ring_write_trb r r.enqueue_segment r.enqueue_trb
    { trb with cycle := r.pcs }
  let r2 := { r1 with enqueue_trb := r1.enqueue_trb + 1 }
  let link := enq_trb_content r2
  if link.trb_type = XHCI_TRB_TYPE_LINK then
    let r2a := ring_write_trb r2 r2.enqueue_segment r2.enqueue_trb
      { link with cycle := r2.pcs }
    let r2b := if link.tc then { r2a with pcs := !r2a.pcs } else r2a
    trb_ring_resolve_link r2b
  else r2

/-- The copy loop of xhci_trb_ring_enqueue; the loop runs while the current
TD TRB is chained. -/
def enqueue_replay (r : xhci_trb_ring) : List xhci_trb → xhci_trb_ring
  | [] => r
  | trb :: rest =>
    if trb.chain then enqueue_replay (replay_step r trb) rest
    else replay_step r trb

/-- Result of xhci_trb_ring_enqueue: EOK with the physical address of the
first enqueued TRB and the new ring state, or EAGAIN with the ring state
restored. -/
inductive enqueue_result : Type
  | ok (phys : Nat) (r : xhci_trb_ring)
  | again (r : xhci_trb_ring)
deriving DecidableEq

/-- xhci_trb_ring_enqueue from trb_ring.c: dry-run advance over the TD
first; on fullness restore the saved enqueue cursor and return EAGAIN;
otherwise restore, report the first TRB's physical address, and copy the
TD in. -/
def xhci_trb_ring_enqueue (r : xhci_trb_ring) (td : List xhci_trb) :
    enqueue_result :=
  match enqueue_dry_run r td with
  | none => enqueue_result.again r
  | some _ => enqueue_result.ok (trb_ring_enqueue_phys r) (enqueue_replay r td)

/-! ## trb_ring.c: the event ring -/

/-- xhci_event_ring_t: ordered segment list, dequeue cursor, reported
dequeue pointer (kept a half-phase off) and consumer cycle state. -/
structure xhci_event_ring where
  segments : List trb_segment := []
  dequeue_segment : Nat := 0
  dequeue_trb : Nat := 0
  dequeue_ptr : Nat := 0
  ccs : Bool := true
deriving DecidableEq

/-- The segment the dequeue cursor points into. -/
def deq_segment (r : xhci_event_ring) : trb_segment :=
  list_nth r.segments r.dequeue_segment empty_segment

/-- The TRB the dequeue pointer targets. -/
def deq_trb_content (r : xhci_event_ring) : xhci_trb :=
  list_nth (deq_segment r).trbs r.dequeue_trb xhci_trb_clean

/-- event_ring_dequeue_phys from trb_ring.c. -/
def event_ring_dequeue_phys (r : xhci_event_ring) : Nat :=
  (deq_segment r).phys + r.dequeue_trb * TRB_SIZE

/-- xhci_event_ring_dequeue from trb_ring.c: publish the dequeue pointer,
compare the current TRB's cycle bit with CCS (ENOENT when unequal), else
copy the TRB out and advance one slot, following the segment list at a
segment boundary and flipping CCS when wrapping from the last segment to
the first. -/
def xhci_event_ring_dequeue (r : xhci_event_ring) :
    errno × Option xhci_trb × xhci_event_ring :=
  let r0 := { r with dequeue_ptr := event_ring_dequeue_phys r }
  if (deq_trb_content r0).cycle ≠ r0.ccs then
    (ENOENT, none, r0)
  else
    let event := deq_trb_content r0
    let index := r0.dequeue_trb + 1
    if SEGMENT_TRB_COUNT ≤ index then
      if r0.dequeue_segment + 1 < r0.segments.length then
        (EOK, some event,
          { r0 with dequeue_segment := r0.dequeue_segment + 1,
                    dequeue_trb := 0 })
      else
        (EOK, some event,
          { r0 with dequeue_segment := 0, dequeue_trb := 0, ccs := !r0.ccs })
    else
      (EOK, some event, { r0 with dequeue_trb := index })

/-! ## Specification-level definitions used by the theorems -/

/-- Modelled from the spec: the Stall Error completion code of the xHCI
completion code enumeration (hw_struct/trb.h is not under src/). -/
def XHCI_TRBC_STALL_ERROR : Nat := 6

/-- All change bits of a PORTSC are acknowledged (clear). -/
def changes_clear (p : xhci_portsc) : Prop :=
  p.csc = false ∧ p.pec = false ∧ p.wrc = false ∧ p.occ = false ∧
  p.prc = false ∧ p.plc = false ∧ p.cec = false

instance (p : xhci_portsc) : Decidable (changes_clear p) := by
  unfold changes_clear
  infer_instance

/-- Usable slot indexes per producer segment: slot SEGMENT_TRB_COUNT - 1
holds the Link TRB. -/
def STOP_SLOTS : Nat := SEGMENT_TRB_COUNT - 1

/-- The abstract enqueue cursor advance of a well-formed n-segment ring:
positions are (segment index, TRB index) pairs with the TRB index ranging
over the usable slots. -/
def ring_next (n : Nat) (p : Nat × Nat) : Nat × Nat :=
  if p.2 + 1 = STOP_SLOTS then (if p.1 + 1 < n then p.1 + 1 else 0, 0)
  else (p.1, p.2 + 1)

/-- k abstract advances from position p. -/
def write_pos (n : Nat) (p : Nat × Nat) : Nat → Nat × Nat
  | 0 => p
  | k + 1 => ring_next n (write_pos n p k)

/-- Linear ordinal of a ring position. -/
def slot_ord (p : Nat × Nat) : Nat := p.1 * STOP_SLOTS + p.2

/-- A valid usable (non-Link) position of an n-segment ring. -/
def valid_pos (n : Nat) (p : Nat × Nat) : Prop :=
  p.1 < n ∧ p.2 < STOP_SLOTS

instance (n : Nat) (p : Nat × Nat) : Decidable (valid_pos n p) := by
  unfold valid_pos
  infer_instance

/-- The TRB stored at position p of a segment list. -/
def ring_content (segs : List trb_segment) (p : Nat × Nat) : xhci_trb :=
  list_nth (list_nth segs p.1 empty_segment).trbs p.2 xhci_trb_clean

/-- The physical address of position p of a segment list. -/
def ring_slot_phys (segs : List trb_segment) (p : Nat × Nat) : Nat :=
  (list_nth segs p.1 empty_segment).phys + p.2 * TRB_SIZE

/-- Well-formed producer segment list, as established by xhci_trb_ring_init:
at least one page-sized segment, and the Link TRB planted exactly at the
last slot of each segment. -/
def wf_ring_segments (segs : List trb_segment) : Prop :=
  0 < segs.length ∧
  (∀ j < segs.length,
    (list_nth segs j empty_segment).trbs.length = SEGMENT_TRB_COUNT) ∧
  (∀ j < segs.length, ∀ i < SEGMENT_TRB_COUNT,
    ((list_nth (list_nth segs j empty_segment).trbs i xhci_trb_clean).trb_type
        = XHCI_TRB_TYPE_LINK ↔ i = SEGMENT_TRB_COUNT - 1))

instance (segs : List trb_segment) : Decidable (wf_ring_segments segs) := by
  unfold wf_ring_segments
  infer_instance

/-- Well-formed producer ring: well-formed segments and the enqueue cursor
on a usable slot. -/
def wf_ring (r : xhci_trb_ring) : Prop :=
  wf_ring_segments r.segments ∧
  valid_pos r.segments.length (r.enqueue_segment, r.enqueue_trb)

instance (r : xhci_trb_ring) : Decidable (wf_ring r) := by
  unfold wf_ring
  infer_instance

/-- The dequeue pointer mirrors the physical address of some usable ring
slot (initially the first slot; later TD addresses from completion
events). -/
def dequeue_on_ring (r : xhci_trb_ring) : Prop :=
  ∃ p, valid_pos r.segments.length p ∧ ring_slot_phys r.segments p = r.dequeue

/-- Well-formed TD, as required by xhci_trb_ring_enqueue: non-empty,
contiguous TRBs chained by the chain bit in all but the last, and
containing no Link TRBs. -/
def wf_td (td : List xhci_trb) : Prop :=
  td ≠ [] ∧
  ∀ i < td.length,
    ((list_nth td i xhci_trb_clean).chain = true ↔ i + 1 < td.length) ∧
    (list_nth td i xhci_trb_clean).trb_type ≠ XHCI_TRB_TYPE_LINK

instance (td : List xhci_trb) : Decidable (wf_td td) := by
  unfold wf_td
  infer_instance

/-- Two TRBs agree on every field except possibly the cycle bit. -/
def trb_matches_mod_cycle (a b : xhci_trb) : Prop :=
  a = { b with cycle := a.cycle }

instance (a b : xhci_trb) : Decidable (trb_matches_mod_cycle a b) := by
  unfold trb_matches_mod_cycle
  infer_instance

/-- The abstract dequeue cursor advance of an n-segment event ring: every
slot of an event segment is usable. -/
def event_ring_next (n : Nat) (p : Nat × Nat) : Nat × Nat :=
  if SEGMENT_TRB_COUNT ≤ p.2 + 1 then
    (if p.1 + 1 < n then p.1 + 1 else 0, 0)
  else (p.1, p.2 + 1)

/-- Well-formed event ring: page-sized segments and an in-range dequeue
cursor. -/
def wf_event_ring (r : xhci_event_ring) : Prop :=
  0 < r.segments.length ∧
  (∀ j < r.segments.length,
    (list_nth r.segments j empty_segment).trbs.length = SEGMENT_TRB_COUNT) ∧
  r.dequeue_segment < r.segments.length ∧
  r.dequeue_trb < SEGMENT_TRB_COUNT

instance (r : xhci_event_ring) : Decidable (wf_event_ring r) := by
  unfold wf_event_ring
  infer_instance

/-- A fresh one-segment transfer ring as built by xhci_trb_ring_init: 253
zero TRBs, the Link TRB with TC at slot 253, dequeue at the first slot. -/
def example_ring : xhci_trb_ring where
  segments :=
    [{ trbs := List.replicate 253 xhci_trb_clean ++
        [{ xhci_trb_clean with
           trb_type := XHCI_TRB_TYPE_LINK, tc := true, cycle := true }],
       phys := 4096 }]
  enqueue_segment := 0
  enqueue_trb := 0
  dequeue := 4096
  pcs := true

/-- A single-TRB TD (chain bit clear). -/
def example_td : List xhci_trb := [xhci_trb_clean]

/-! # Theorems -/

/-! ## List helper lemmas -/

theorem list_upd_length {α : Type} (l : List α) (i : Nat) (a : α) :
    (list_upd l i a).length = l.length := by
  induction l generalizing i with
  | nil => rfl
  | cons x xs ih =>
    cases i with
    | zero => rfl
    | succ j => simpa [list_upd] using ih j

theorem list_nth_upd_eq {α : Type} (l : List α) (i : Nat) (a d : α)
    (h : i < l.length) : list_nth (list_upd l i a) i d = a := by
  induction l generalizing i with
  | nil => simp at h
  | cons x xs ih =>
    cases i with
    | zero => rfl
    | succ j =>
      simp only [list_upd, list_nth]
      exact ih j (by simpa using h)

theorem list_nth_upd_ne {α : Type} (l : List α) (i j : Nat) (a d : α)
    (h : j ≠ i) : list_nth (list_upd l i a) j d = list_nth l j d := by
  induction l generalizing i j with
  | nil => rfl
  | cons x xs ih =>
    cases i with
    | zero =>
      cases j with
      | zero => exact absurd rfl h
      | succ k => rfl
    | succ i' =>
      cases j with
      | zero => rfl
      | succ k =>
        simp only [list_upd, list_nth]
        exact ih i' k (fun hk => h (by simp [hk]))

theorem list_nth_cons_succ {α : Type} (x : α) (xs : List α) (i : Nat) (d : α) :
    list_nth (x :: xs) (i + 1) d = list_nth xs i d := rfl

/-! ## C6: Configure Endpoint precedes the control TD enqueue -/

/-- C6: for a standard Set-Configuration or Set-Interface setup packet,
schedule_control submits the Configure Endpoint (configure device) command
and only enqueues the Setup-Data-Status TD after it completed successfully;
for every other setup packet the trace holds no configure command. -/
theorem schedule_control_configure_ordering
    (setup : setup_packet) (bs phys slot : Nat) (cr rr : errno) :
    (configure_endpoint_needed setup = true →
      (cr = EOK →
        schedule_control setup bs phys slot cr rr =
          (rr, [ctrl_action.configure_device slot,
                ctrl_action.ring_enqueue (control_td setup bs phys)])) ∧
      (cr ≠ EOK →
        schedule_control setup bs phys slot cr rr =
          (cr, [ctrl_action.configure_device slot]))) ∧
    (configure_endpoint_needed setup = false →
      schedule_control setup bs phys slot cr rr =
        (rr, [ctrl_action.ring_enqueue (control_td setup bs phys)])) := by
  constructor
  · intro h
    constructor
    · intro hc
      simp [schedule_control, h, hc]
    · intro hc
      simp [schedule_control, h, hc]
  · intro h
    simp [schedule_control, h]

/-- C6 witness: a Set-Configuration request issues the configure command
first, then enqueues the TD. -/
theorem schedule_control_configure_ordering_witness :
    schedule_control { request_type := 0, request := 9 } 0 0 5 EOK EOK =
      (EOK, [ctrl_action.configure_device 5,
             ctrl_action.ring_enqueue (control_td { request_type := 0, request := 9 } 0 0)]) :=
  ((schedule_control_configure_ordering
      { request_type := 0, request := 9 } 0 0 5 EOK EOK).1 (by decide)).1 rfl

/-! ## C2: the Setup Stage TRT field for host-to-device data transfers -/

/-- C2: evaluating the TD construction at a host-to-device setup packet with
wLength = 8 shows the Setup Stage TRB's TRT field is DATA_STAGE_NO, not the
DATA_STAGE_OUT the claim (and the xHCI tables cited by the source comment)
require; all remaining fields of the claim hold. -/
theorem setup_stage_trt_out_data_eval :
    (setup_stage_trb { request_type := 0, request := 1, length := 8 }).trt
        = DATA_STAGE_NO ∧
    DATA_STAGE_NO ≠ DATA_STAGE_OUT ∧
    get_transfer_type 0 8 = DATA_STAGE_NO ∧
    (setup_stage_trb { request_type := 0, request := 1, length := 8 }).idt
        = true ∧
    (setup_stage_trb { request_type := 0, request := 1, length := 8 }).xfer_len
        = 8 := by
  refine ⟨?_, ?_, ?_, ?_, ?_⟩ <;> decide

/-! ## C10: offline devices only schedule on EP0 -/

/-- C10: a batch for an offline device is rejected with EAGAIN and an empty
action trace when the endpoint number is nonzero; on EP0 the scheduling path
proceeds exactly as for an online device, down to the doorbell. -/
theorem xhci_transfer_schedule_offline_policy
    (n sc bs slot idx : Nat) (alloc : Bool) (hr dr : errno) :
    xhci_transfer_schedule false (n + 1) sc bs alloc hr slot idx dr
        = (EAGAIN, []) ∧
    xhci_transfer_schedule false 0 sc bs alloc hr slot idx dr
        = xhci_transfer_schedule true 0 sc bs alloc hr slot idx dr ∧
    xhci_transfer_schedule false 0 (sc + 1) bs true EOK slot idx dr
        = (dr, [sched_action.activate, sched_action.run_handler,
                sched_action.ring_doorbell slot (idx + 1)]) := by
  refine ⟨?_, ?_, ?_⟩ <;> simp [xhci_transfer_schedule]

/-! ## C9: route string derivation -/

/-- C9: the enumerated device's tier is the parent's plus one; iff the tier
is at least 2, the nibble port & 0xF is placed at bit offset 4 * (tier - 2)
of the copied route string and the parent's root hub port is recorded; for
tier below 2 route string and rh_port are unchanged.  When the parent route
occupies only the lower nibbles, the placed nibble reads back from the new
route string and the parent route is preserved under it. -/
theorem xhci_bus_enumerate_route_correct
    (pt pr prp port drp : Nat) :
    (xhci_bus_enumerate_route pt pr prp port drp).1 = pt + 1 ∧
    (2 ≤ pt + 1 →
      xhci_bus_enumerate_route pt pr prp port drp =
        (pt + 1, pr ||| ((port &&& 0xf) <<< (4 * (pt - 1))), prp)) ∧
    (pt + 1 < 2 →
      xhci_bus_enumerate_route pt pr prp port drp = (pt + 1, pr, drp)) ∧
    (∀ k, pt = k + 1 → pr < 2 ^ (4 * k) →
      (xhci_bus_enumerate_route pt pr prp port drp).2.1 % 2 ^ (4 * k) = pr ∧
      (xhci_bus_enumerate_route pt pr prp port drp).2.1 / 2 ^ (4 * k)
          = port &&& 0xf) := by
  refine ⟨?_, ?_, ?_, ?_⟩
  · simp only [xhci_bus_enumerate_route]
    split <;> rfl
  · intro h
    simp only [xhci_bus_enumerate_route]
    split
    · have : pt + 1 - 2 = pt - 1 := by omega
      rw [this]
    · omega
  · intro h
    simp only [xhci_bus_enumerate_route]
    split
    · omega
    · rfl
  · intro k hk hlt
    subst hk
    have h2 : 2 ≤ k + 1 + 1 := by omega
    simp only [xhci_bus_enumerate_route]
    split
    · have hoff : 4 * (k + 1 + 1 - 2) = 4 * k := by omega
      simp only [hoff]
      have hor : pr ||| ((port &&& 0xf) <<< (4 * k))
          = 2 ^ (4 * k) * (port &&& 0xf) + pr := by
        rw [Nat.shiftLeft_eq, Nat.lor_comm, Nat.mul_comm (port &&& 0xf) (2 ^ (4 * k))]
        exact (Nat.mul_add_lt_is_or hlt (port &&& 0xf)).symm
      have hpos : 0 < 2 ^ (4 * k) := Nat.pos_pow_of_pos _ (by omega)
      have hd : pr / 2 ^ (4 * k) = 0 := Nat.div_eq_of_lt hlt
      constructor
      · rw [hor, Nat.mul_add_mod, Nat.mod_eq_of_lt hlt]
      · rw [hor, Nat.mul_add_div hpos]
        omega
    · omega

/-- C9 witness: a tier-2 device on port 3 behind a tier-1 hub with empty
route string gets route nibble 3 at offset 0. -/
theorem xhci_bus_enumerate_route_correct_witness :
    2 ≤ 1 + 1 ∧
    xhci_bus_enumerate_route 1 0 4 3 0 = (2, 3, 4) := by
  refine ⟨by decide, ?_⟩
  have h := (xhci_bus_enumerate_route_correct 1 0 4 3 0).2.1 (by decide)
  simpa using h

/-! ## C5: connected-port policy by speed and link state -/

theorem portsc_ack_clear (p : xhci_portsc) : changes_clear (portsc_ack p) := by
  simp [portsc_ack, changes_clear]

theorem handle_connected_device_preserves_clear (maj port : Nat) (sr : errno)
    (p : xhci_portsc) (h : changes_clear p) :
    changes_clear (handle_connected_device maj port sr p).2.1 := by
  unfold handle_connected_device xhci_rh_reset_port
  obtain ⟨h1, h2, h3, h4, h5, h6, h7⟩ := h
  split
  · split
    · exact ⟨h1, h2, h3, h4, h5, h6, h7⟩
    · split
      · exact ⟨h1, h2, h3, h4, h5, h6, h7⟩
      · exact ⟨h1, h2, h3, h4, h5, h6, h7⟩
  · exact ⟨h1, h2, h3, h4, h5, h6, h7⟩

/-- C5: for a port whose Connect Status Change fired and is now connected:
a USB3 port (major = 3) at link state 0 starts enumeration immediately; a
USB3 port at link state 5 reports an enable failure (EAGAIN) without
enumerating; a non-USB3 (USB2) port gets PR = 1 written and does not
enumerate; the deferred enumeration happens in the Port Reset Change branch
of the port change handler for non-USB3 ports. -/
theorem handle_connected_device_policy :
    (∀ (port : Nat) (sr : errno) (p : xhci_portsc), p.pls = 0 →
        handle_connected_device 3 port sr p
          = (sr, p, [rh_action.setup_device port])) ∧
    (∀ (port : Nat) (sr : errno) (p : xhci_portsc), p.pls = 5 →
        handle_connected_device 3 port sr p = (EAGAIN, p, [])) ∧
    (∀ (maj port : Nat) (sr : errno) (p : xhci_portsc), maj ≠ 3 →
        handle_connected_device maj port sr p
          = (EOK, { p with pr := true }, [rh_action.reset_port port]) ∧
        (xhci_rh_reset_port p).pr = true) ∧
    (∀ (maj port : Nat) (sr : errno) (p : xhci_portsc),
        maj ≠ 3 → p.prc = true → p.csc = false →
        port_change_step maj port sr p
          = (portsc_ack p, [rh_action.setup_device port])) := by
  refine ⟨?_, ?_, ?_, ?_⟩
  · intro port sr p h
    simp [handle_connected_device, h]
  · intro port sr p h
    simp [handle_connected_device, h]
  · intro maj port sr p h
    constructor
    · simp [handle_connected_device, h, xhci_rh_reset_port]
    · rfl
  · intro maj port sr p h hprc hcsc
    simp [port_change_step, hprc, hcsc, h]

/-- C5 witness: a USB3 port at link state 0 enumerates at once; a USB2 port
is reset instead. -/
theorem handle_connected_device_policy_witness :
    handle_connected_device 3 1 EOK {} = (EOK, {}, [rh_action.setup_device 1]) ∧
    handle_connected_device 2 1 EOK {}
      = (EOK, { pr := true }, [rh_action.reset_port 1]) ∧
    port_change_step 2 4 EOK { prc := true }
      = (portsc_ack { prc := true }, [rh_action.setup_device 4]) :=
  ⟨handle_connected_device_policy.1 1 EOK {} rfl,
   (handle_connected_device_policy.2.2.1 2 1 EOK {} (by decide)).1,
   handle_connected_device_policy.2.2.2 2 4 EOK { prc := true }
     (by decide) rfl rfl⟩

/-! ## C8: every port is scanned, every change bit acknowledged -/

theorem port_change_step_acks (maj port : Nat) (sr : errno) (p : xhci_portsc) :
    changes_clear (port_change_step maj port sr p).1 := by
  unfold port_change_step
  split
  · split
    · exact handle_connected_device_preserves_clear maj port sr
        (portsc_ack p) (portsc_ack_clear p)
    · exact portsc_ack_clear p
  · exact portsc_ack_clear p

theorem port_change_go_spec (l : List rh_port) (i : Nat) :
    (port_change_go i l).1.length = l.length ∧
    ∀ j, j < l.length →
      changes_clear (list_nth (port_change_go i l).1 j {}) := by
  induction l generalizing i with
  | nil => exact ⟨rfl, fun j hj => by simp at hj⟩
  | cons p rest ih =>
    refine ⟨by simpa [port_change_go] using (ih (i + 1)).1, ?_⟩
    intro j hj
    cases j with
    | zero =>
      simpa [port_change_go, list_nth] using
        port_change_step_acks p.speed_major i p.setup_result p.portsc
    | succ k =>
      simpa [port_change_go, list_nth] using
        (ih (i + 1)).2 k (by simpa using hj)

/-- C8: the Port Status Change Event handler ignores the port number named
in the event TRB and scans ports 1 .. max_ports; after one invocation every
change bit of every scanned port has been acknowledged. -/
theorem xhci_rh_port_event_scans_all_ports (trb trb' : xhci_trb)
    (ports : List rh_port) :
    xhci_rh_handle_port_status_change_event trb ports
      = xhci_rh_handle_port_change ports ∧
    xhci_rh_handle_port_status_change_event trb ports
      = xhci_rh_handle_port_status_change_event trb' ports ∧
    (xhci_rh_handle_port_status_change_event trb ports).1.length
      = ports.length ∧
    ∀ j, j < ports.length →
      changes_clear
        (list_nth (xhci_rh_handle_port_status_change_event trb ports).1 j {}) := by
  refine ⟨rfl, rfl, ?_, ?_⟩
  · exact (port_change_go_spec ports 1).1
  · exact (port_change_go_spec ports 1).2

/-- C8 witness: a one-port hub with several change bits set is fully
acknowledged by a single invocation, whatever port the event names. -/
theorem xhci_rh_port_event_scans_all_ports_witness :
    (0 : Nat) < 1 ∧
    changes_clear
      (list_nth
        (xhci_rh_handle_port_status_change_event { slot_id := 7 }
          [{ speed_major := 2,
             portsc := { csc := true, prc := true, occ := true } }]).1 0 {}) :=
  ⟨by decide,
   (xhci_rh_port_event_scans_all_ports { slot_id := 7 } { slot_id := 9 }
     [{ speed_major := 2,
        portsc := { csc := true, prc := true, occ := true } }]).2.2.2 0
     (by decide)⟩

/-! ## C4: event ring dequeue -/

theorem deq_trb_content_set_ptr (r : xhci_event_ring) (x : Nat) :
    deq_trb_content { r with dequeue_ptr := x } = deq_trb_content r := rfl

theorem xhci_event_ring_dequeue_success (r : xhci_event_ring)
    (h : (deq_trb_content r).cycle = r.ccs) :
    (xhci_event_ring_dequeue r).1 = EOK ∧
    (xhci_event_ring_dequeue r).2.1 = some (deq_trb_content r) ∧
    (xhci_event_ring_dequeue r).2.2.segments = r.segments ∧
    ((xhci_event_ring_dequeue r).2.2.dequeue_segment,
      (xhci_event_ring_dequeue r).2.2.dequeue_trb)
        = event_ring_next r.segments.length (r.dequeue_segment, r.dequeue_trb) ∧
    (xhci_event_ring_dequeue r).2.2.ccs
        = (if SEGMENT_TRB_COUNT ≤ r.dequeue_trb + 1 ∧
              ¬r.dequeue_segment + 1 < r.segments.length
           then !r.ccs else r.ccs) := by
  by_cases hidx : SEGMENT_TRB_COUNT ≤ r.dequeue_trb + 1 <;>
    by_cases hseg : r.dequeue_segment + 1 < r.segments.length <;>
    simp [xhci_event_ring_dequeue, event_ring_next, deq_trb_content_set_ptr,
      hidx, hseg, h]

/-- C4: the event ring dequeue returns Empty (ENOENT) exactly when the cycle
bit of the TRB at the dequeue cursor differs from CCS, leaving the cursor
and CCS unchanged; otherwise it returns that TRB and advances the cursor by
one slot, following the segment list at a segment boundary, flipping CCS
exactly when wrapping from the last segment back to the first; a successive
call then returns the TRB at the advanced cursor, so events come out in the
order the producer wrote them. -/
theorem xhci_event_ring_dequeue_correct (r : xhci_event_ring)
    (h : wf_event_ring r) :
    ((xhci_event_ring_dequeue r).1 = ENOENT ↔
        (deq_trb_content r).cycle ≠ r.ccs) ∧
    ((deq_trb_content r).cycle ≠ r.ccs →
       (xhci_event_ring_dequeue r).2.1 = none ∧
       (xhci_event_ring_dequeue r).2.2.dequeue_segment = r.dequeue_segment ∧
       (xhci_event_ring_dequeue r).2.2.dequeue_trb = r.dequeue_trb ∧
       (xhci_event_ring_dequeue r).2.2.ccs = r.ccs ∧
       (xhci_event_ring_dequeue r).2.2.segments = r.segments) ∧
    ((deq_trb_content r).cycle = r.ccs →
       (xhci_event_ring_dequeue r).1 = EOK ∧
       (xhci_event_ring_dequeue r).2.1 = some (deq_trb_content r) ∧
       (xhci_event_ring_dequeue r).2.2.segments = r.segments ∧
       ((xhci_event_ring_dequeue r).2.2.dequeue_segment,
         (xhci_event_ring_dequeue r).2.2.dequeue_trb)
           = event_ring_next r.segments.length
               (r.dequeue_segment, r.dequeue_trb) ∧
       ((xhci_event_ring_dequeue r).2.2.ccs = (!r.ccs) ↔
          (r.dequeue_trb + 1 = SEGMENT_TRB_COUNT ∧
           r.dequeue_segment + 1 = r.segments.length)) ∧
       (¬(r.dequeue_trb + 1 = SEGMENT_TRB_COUNT ∧
           r.dequeue_segment + 1 = r.segments.length) →
          (xhci_event_ring_dequeue r).2.2.ccs = r.ccs) ∧
       wf_event_ring (xhci_event_ring_dequeue r).2.2) ∧
    ((deq_trb_content r).cycle = r.ccs →
       (deq_trb_content (xhci_event_ring_dequeue r).2.2).cycle
           = (xhci_event_ring_dequeue r).2.2.ccs →
       (xhci_event_ring_dequeue (xhci_event_ring_dequeue r).2.2).2.1
         = some (deq_trb_content (xhci_event_ring_dequeue r).2.2)) := by
  obtain ⟨hn, hlen, hds, hdt⟩ := h
  refine ⟨?_, ?_, ?_, ?_⟩
  · by_cases hcyc : (deq_trb_content r).cycle = r.ccs
    · have hs := xhci_event_ring_dequeue_success r hcyc
      rw [hs.1]
      simp [hcyc]
    · simp [xhci_event_ring_dequeue, deq_trb_content_set_ptr, hcyc]
  · intro hcyc
    simp [xhci_event_ring_dequeue, deq_trb_content_set_ptr, hcyc]
  · intro hcyc
    have hs := xhci_event_ring_dequeue_success r hcyc
    have hbool : ∀ b : Bool, ¬b = !b := by decide
    refine ⟨hs.1, hs.2.1, hs.2.2.1, hs.2.2.2.1, ?_, ?_, ?_⟩
    · rw [hs.2.2.2.2]
      constructor
      · intro hflip
        by_contra hcon
        rw [if_neg] at hflip
        · exact hbool r.ccs hflip
        · intro ⟨ha, hb⟩
          exact hcon ⟨by omega, by omega⟩
      · intro ⟨ha, hb⟩
        rw [if_pos ⟨by omega, by omega⟩]
    · intro hcon
      rw [hs.2.2.2.2, if_neg]
      intro ⟨ha, hb⟩
      exact hcon ⟨by omega, by omega⟩
    · refine ⟨by rw [hs.2.2.1]; exact hn, ?_, ?_, ?_⟩
      · rw [hs.2.2.1]
        exact hlen
      · have := hs.2.2.2.1
        rw [hs.2.2.1]
        simp only [event_ring_next] at this
        by_cases hidx : SEGMENT_TRB_COUNT ≤ r.dequeue_trb + 1 <;>
          by_cases hseg : r.dequeue_segment + 1 < r.segments.length <;>
          simp [hidx, hseg] at this <;> omega
      · have := hs.2.2.2.1
        simp only [event_ring_next] at this
        by_cases hidx : SEGMENT_TRB_COUNT ≤ r.dequeue_trb + 1 <;>
          by_cases hseg : r.dequeue_segment + 1 < r.segments.length <;>
          simp [hidx, hseg] at this <;> omega
  · intro hcyc h2
    exact (xhci_event_ring_dequeue_success _ h2).2.1

/-- C4 witness: a fresh one-segment event ring (all TRB cycle bits 0,
CCS = 1) is empty without moving the cursor. -/
theorem xhci_event_ring_dequeue_correct_witness :
    (xhci_event_ring_dequeue
      { segments := [{ trbs := List.replicate SEGMENT_TRB_COUNT xhci_trb_clean,
                       phys := 4096 }],
        dequeue_segment := 0, dequeue_trb := 0, dequeue_ptr := 4096,
        ccs := true }).2.1 = none := by
  exact ((xhci_event_ring_dequeue_correct _ (by decide)).2.1 (by decide)).1

/-! ## C3: transfer event handling -/

/-- C3 counterexample: the handler maps a Stall Error completion (code 6) to
ENAK, the same error every non-success completion gets; there is no distinct
stall classification, refuting the claimed success/NAK/stall/other
classification at this concrete input. -/
theorem xhci_handle_transfer_event_stall_counterexample :
    (xhci_handle_transfer_event
      { devices_by_slot :=
          [some { slot_id := 0,
                  endpoints :=
                    [some { ring_dequeue := 0,
                            active_batch := some { buffer_size := 8,
                                                   buffer := [1, 1, 1, 1, 1, 1, 1, 1],
                                                   dir_in := false },
                            hc_buffer := [] }] }] }
      { parameter := 4242, slot_id := 0, ep_dci := 1,
        completion_code := XHCI_TRBC_STALL_ERROR, transfer_length := 8 }).2.2
      = [ev_action.lock, ev_action.deactivate, ev_action.unlock,
         ev_action.finish { buffer_size := 8, transfered_size := 0,
                            buffer := [1, 1, 1, 1, 1, 1, 1, 1],
                            dir_in := false, error := ENAK }] ∧
    ENAK ≠ ESTALL := by
  constructor
  · rfl
  · decide

/-- C3 (amended): for a Transfer Event on a known slot and endpoint with an
active batch, the handler updates the ring dequeue pointer to the event's
parameter, deactivates the endpoint between taking and releasing its guard,
reports buffer_size - TRB_TRANSFER_LENGTH, classifies the completion code
into success (EOK) and everything else (ENAK), and for device-to-host
batches copies the reported number of bytes from the driver bounce buffer
into the caller's buffer before finalizing the batch. -/
theorem xhci_handle_transfer_event_correct
    (hc : hc_state_m) (trb : xhci_trb) (dev : xhci_device_m)
    (ep : xhci_endpoint_m) (batch : usb_batch)
    (hdev : list_nth hc.devices_by_slot trb.slot_id none = some dev)
    (hep : list_nth dev.endpoints (trb.ep_dci / 2) none = some ep)
    (hbatch : ep.active_batch = some batch) :
    (xhci_handle_transfer_event hc trb).1 = EOK ∧
    (xhci_handle_transfer_event hc trb).2.1
      = hc_upd_ep hc trb.slot_id (trb.ep_dci / 2) dev
          { ep with ring_dequeue := trb.parameter, active_batch := none } ∧
    (xhci_handle_transfer_event hc trb).2.2
      = [ev_action.lock, ev_action.deactivate, ev_action.unlock] ++
        (if batch.dir_in then
          [ev_action.memcpy
            (List.take (batch.buffer_size - trb.transfer_length) ep.hc_buffer)]
         else []) ++
        [ev_action.finish
          { batch with
            error := if trb.completion_code = XHCI_TRBC_SUCCESS then EOK
                     else ENAK,
            transfered_size := batch.buffer_size - trb.transfer_length,
            buffer :=
              if batch.dir_in then
                List.take (batch.buffer_size - trb.transfer_length)
                    ep.hc_buffer ++
                  List.drop (batch.buffer_size - trb.transfer_length)
                    batch.buffer
              else batch.buffer }] ∧
    (batch.dir_in = true →
      batch.buffer_size - trb.transfer_length ≤ ep.hc_buffer.length →
      List.take (batch.buffer_size - trb.transfer_length)
          (List.take (batch.buffer_size - trb.transfer_length) ep.hc_buffer ++
            List.drop (batch.buffer_size - trb.transfer_length) batch.buffer)
        = List.take (batch.buffer_size - trb.transfer_length) ep.hc_buffer ∧
      List.drop (batch.buffer_size - trb.transfer_length)
          (List.take (batch.buffer_size - trb.transfer_length) ep.hc_buffer ++
            List.drop (batch.buffer_size - trb.transfer_length) batch.buffer)
        = List.drop (batch.buffer_size - trb.transfer_length) batch.buffer) := by
  have hx : ∀ (l : List Nat) (t : Nat), t ≤ l.length →
      (List.take t l).length = t := by
    intro l t ht
    simp [List.length_take]
    omega
  refine ⟨?_, ?_, ?_, ?_⟩
  · simp only [xhci_handle_transfer_event, hdev, hep]
    simp [hbatch]
  · simp only [xhci_handle_transfer_event, hdev, hep]
    simp [hbatch]
  · simp only [xhci_handle_transfer_event, hdev, hep]
    simp only [hbatch]
    by_cases hdir : batch.dir_in <;> simp [hdir]
  · intro hdir hle
    constructor
    · exact List.take_left'
        (hx ep.hc_buffer (batch.buffer_size - trb.transfer_length) hle)
    · exact List.drop_left'
        (hx ep.hc_buffer (batch.buffer_size - trb.transfer_length) hle)

/-- C3 witness: a successful IN completion of 4 of 8 bytes copies 4 bounce
bytes to the caller and reports 4. -/
theorem xhci_handle_transfer_event_correct_witness :
    (xhci_handle_transfer_event
      { devices_by_slot :=
          [some { slot_id := 0,
                  endpoints :=
                    [some { ring_dequeue := 0,
                            active_batch := some { buffer_size := 8,
                                                   buffer := [9, 9, 9, 9, 9, 9, 9, 9],
                                                   dir_in := true },
                            hc_buffer := [1, 2, 3, 4, 5, 6, 7, 8] }] }] }
      { parameter := 4242, slot_id := 0, ep_dci := 1,
        completion_code := XHCI_TRBC_SUCCESS, transfer_length := 4 }).1
      = EOK := by
  exact (xhci_handle_transfer_event_correct
    { devices_by_slot :=
        [some { slot_id := 0,
                endpoints :=
                  [some { ring_dequeue := 0,
                          active_batch := some { buffer_size := 8,
                                                 buffer := [9, 9, 9, 9, 9, 9, 9, 9],
                                                 dir_in := true },
                          hc_buffer := [1, 2, 3, 4, 5, 6, 7, 8] }] }] }
    { parameter := 4242, slot_id := 0, ep_dci := 1,
      completion_code := XHCI_TRBC_SUCCESS, transfer_length := 4 }
    { slot_id := 0,
      endpoints :=
        [some { ring_dequeue := 0,
                active_batch := some { buffer_size := 8,
                                       buffer := [9, 9, 9, 9, 9, 9, 9, 9],
                                       dir_in := true },
                hc_buffer := [1, 2, 3, 4, 5, 6, 7, 8] }] }
    { ring_dequeue := 0,
      active_batch := some { buffer_size := 8,
                             buffer := [9, 9, 9, 9, 9, 9, 9, 9],
                             dir_in := true },
      hc_buffer := [1, 2, 3, 4, 5, 6, 7, 8] }
    { buffer_size := 8, buffer := [9, 9, 9, 9, 9, 9, 9, 9], dir_in := true }
    rfl rfl rfl).1

/-! ## C7: DCBAA entries track the device lifecycle -/

/-- C7: the DCBAA invariant - an entry is non-zero iff a device with that
slot id is Addressed or Configured - is preserved by enumeration (Address
Device), by Configure Device and by removal; and after
xhci_bus_remove_device the slot's DCBAA entry is 0 and devices_by_slot
holds null. -/
theorem dcbaa_lifecycle_correct (s : lc_state) (slot ctx : Nat)
    (h : dcbaa_invariant s) :
    (slot < s.dcbaa.length → ctx ≠ 0 →
      dcbaa_invariant (lc_enumerate s slot ctx)) ∧
    dcbaa_invariant (lc_online s slot) ∧
    dcbaa_invariant (xhci_bus_remove_device s slot) ∧
    (slot < s.dcbaa.length →
      list_nth (xhci_bus_remove_device s slot).dcbaa slot 0 = 0 ∧
      list_nth (xhci_bus_remove_device s slot).devices_by_slot slot none
        = none) := by
  obtain ⟨hlen, hinv⟩ := h
  refine ⟨?_, ?_, ?_, ?_⟩
  · intro hslot hctx
    refine ⟨by simp [lc_enumerate, list_upd_length, hlen], ?_⟩
    intro j hj
    simp only [lc_enumerate, list_upd_length] at hj ⊢
    by_cases hjs : j = slot
    · subst hjs
      rw [list_nth_upd_eq _ _ _ _ hj, list_nth_upd_eq _ _ _ _ (by omega)]
      constructor
      · intro _
        exact ⟨_, rfl, Or.inl rfl⟩
      · intro _
        exact hctx
    · rw [list_nth_upd_ne _ _ _ _ _ hjs, list_nth_upd_ne _ _ _ _ _ hjs]
      exact hinv j hj
  · unfold lc_online
    cases hd : list_nth s.devices_by_slot slot none with
    | none => exact ⟨hlen, hinv⟩
    | some d =>
      refine ⟨by simp [list_upd_length, hlen], ?_⟩
      intro j hj
      simp only [list_upd_length] at hj
      by_cases hjs : j = slot
      · subst hjs
        rw [list_nth_upd_eq _ _ _ _ (by omega)]
        constructor
        · intro _
          exact ⟨_, rfl, Or.inr rfl⟩
        · intro _
          have := (hinv j hj).2
          apply this
          exact ⟨d, hd, by cases hds : d.state <;> simp⟩
      · rw [list_nth_upd_ne _ _ _ _ _ hjs]
        exact hinv j hj
  · refine ⟨by simp [xhci_bus_remove_device, list_upd_length, hlen], ?_⟩
    intro j hj
    simp only [xhci_bus_remove_device, list_upd_length] at hj ⊢
    by_cases hjs : j = slot
    · subst hjs
      rw [list_nth_upd_eq _ _ _ _ hj, list_nth_upd_eq _ _ _ _ (by omega)]
      simp
    · rw [list_nth_upd_ne _ _ _ _ _ hjs, list_nth_upd_ne _ _ _ _ _ hjs]
      exact hinv j hj
  · intro hslot
    constructor
    · exact list_nth_upd_eq _ _ _ _ hslot
    · exact list_nth_upd_eq _ _ _ _ (by simpa [hlen] using hslot)

/-- C7 witness: removing the device in slot 0 clears DCBAA[0] and
devices_by_slot[0]. -/
theorem dcbaa_lifecycle_correct_witness :
    list_nth (xhci_bus_remove_device
        { dcbaa := [5], devices_by_slot := [some {}] } 0).dcbaa 0 0 = 0 ∧
    list_nth (xhci_bus_remove_device
        { dcbaa := [5], devices_by_slot := [some {}] } 0).devices_by_slot 0
        none = none := by
  have hinv : dcbaa_invariant { dcbaa := [5], devices_by_slot := [some {}] } := by
    refine ⟨rfl, ?_⟩
    intro j hj
    have hj0 : j = 0 := by
      simp [list_nth] at hj
      omega
    subst hj0
    constructor
    · intro _
      exact ⟨{}, rfl, Or.inl rfl⟩
    · intro _
      decide
  exact (dcbaa_lifecycle_correct _ 0 0 hinv).2.2.2 (by decide)

/-! ## C1: transactional TD enqueue

The proof layers: (1) arithmetic of the abstract cursor advance ring_next;
(2) the dry-run loop advances the cursor exactly like ring_next and detects
every dequeue collision; (3) the copy loop follows the same positions and
writes the TD; (4) a successful dry run bounds the TD by the ring size, so
the written slots are pairwise distinct. -/

theorem stop_slots_eq : STOP_SLOTS = 253 := rfl

theorem ring_next_valid (n : Nat) (p : Nat × Nat) (hn : 0 < n)
    (h : valid_pos n p) : valid_pos n (ring_next n p) := by
  obtain ⟨h1, h2⟩ := h
  rw [stop_slots_eq] at h2
  unfold ring_next valid_pos
  rw [stop_slots_eq]
  split
  · split
    · next hlt =>
      refine ⟨?_, ?_⟩ <;> dsimp only <;> omega
    · refine ⟨?_, ?_⟩ <;> dsimp only <;> omega
  · next hne =>
    refine ⟨?_, ?_⟩ <;> dsimp only <;> omega

theorem slot_ord_lt (n : Nat) (p : Nat × Nat) (h : valid_pos n p) :
    slot_ord p < n * STOP_SLOTS := by
  obtain ⟨h1, h2⟩ := h
  rw [stop_slots_eq] at h2
  unfold slot_ord
  rw [stop_slots_eq]
  omega

theorem slot_ord_ring_next (n : Nat) (p : Nat × Nat) (hn : 0 < n)
    (h : valid_pos n p) :
    slot_ord (ring_next n p) = (slot_ord p + 1) % (n * STOP_SLOTS) := by
  obtain ⟨h1, h2⟩ := h
  rw [stop_slots_eq] at h2
  unfold ring_next slot_ord
  rw [stop_slots_eq]
  split
  · next heq =>
    split
    · next hlt =>
      dsimp only
      have harg : p.1 * 253 + p.2 + 1 = (p.1 + 1) * 253 := by omega
      rw [harg, Nat.mod_eq_of_lt (by omega)]
      omega
    · next hge =>
      dsimp only
      have harg : p.1 * 253 + p.2 + 1 = n * 253 := by omega
      rw [harg, Nat.mod_self]
  · next hne =>
    dsimp only
    rw [Nat.mod_eq_of_lt (by omega)]
    omega

theorem write_pos_spec (n : Nat) (p : Nat × Nat) (hn : 0 < n)
    (h : valid_pos n p) (k : Nat) :
    valid_pos n (write_pos n p k) ∧
    slot_ord (write_pos n p k) = (slot_ord p + k) % (n * STOP_SLOTS) := by
  induction k with
  | zero =>
    refine ⟨h, ?_⟩
    show slot_ord p = (slot_ord p + 0) % (n * STOP_SLOTS)
    rw [Nat.add_zero, Nat.mod_eq_of_lt (slot_ord_lt n p h)]
  | succ k ih =>
    obtain ⟨hv, ho⟩ := ih
    refine ⟨ring_next_valid n _ hn hv, ?_⟩
    show slot_ord (ring_next n (write_pos n p k)) = _
    rw [slot_ord_ring_next n _ hn hv, ho, Nat.mod_add_mod, ← Nat.add_assoc]

theorem slot_ord_inj (n : Nat) (p q : Nat × Nat) (hp : valid_pos n p)
    (hq : valid_pos n q) (h : slot_ord p = slot_ord q) : p = q := by
  obtain ⟨hp1, hp2⟩ := hp
  obtain ⟨hq1, hq2⟩ := hq
  rw [stop_slots_eq] at hp2 hq2
  unfold slot_ord at h
  rw [stop_slots_eq] at h
  obtain ⟨a, b⟩ := p
  obtain ⟨c, d⟩ := q
  simp only at h hp2 hq2
  have : a = c := by omega
  have : b = d := by omega
  simp_all

theorem write_pos_shift (n : Nat) (p : Nat × Nat) (k : Nat) :
    write_pos n (ring_next n p) k = write_pos n p (k + 1) := by
  induction k with
  | zero => rfl
  | succ k ih =>
    show ring_next n (write_pos n (ring_next n p) k) = _
    rw [ih]
    rfl

/-- Iterating the cursor advance at least a full ring turn hits every valid
position, in particular the dequeue slot. -/
theorem write_pos_hits (n : Nat) (p0 d : Nat × Nat) (hn : 0 < n)
    (hp : valid_pos n p0) (hd : valid_pos n d) (m : Nat)
    (hm : n * STOP_SLOTS ≤ m) :
    ∃ k, 1 ≤ k ∧ k ≤ m ∧ write_pos n p0 k = d := by
  set N := n * STOP_SLOTS with hN
  have hNpos : 0 < N := by
    rw [hN, stop_slots_eq]
    omega
  have ha := slot_ord_lt n p0 hp
  have hb := slot_ord_lt n d hd
  rw [← hN] at ha hb
  set a := slot_ord p0 with hadef
  set b := slot_ord d with hbdef
  by_cases hab : b = a
  · refine ⟨N, by omega, by omega, ?_⟩
    apply slot_ord_inj n _ _ (write_pos_spec n p0 hn hp N).1 hd
    rw [(write_pos_spec n p0 hn hp N).2, ← hN, ← hadef, ← hbdef]
    rw [Nat.add_mod_right, Nat.mod_eq_of_lt ha, hab]
  · set k := (b + N - a) % N with hk
    have hk1 : 1 ≤ k := by
      rcases Nat.eq_zero_or_pos k with h0 | h1
      · exfalso
        have hdvd : (b + N - a) % N = 0 := by rw [← hk, h0]
        have hlow : 0 < b + N - a := by omega
        have hhigh : b + N - a < 2 * N := by omega
        rcases Nat.lt_or_ge (b + N - a) N with hc | hc
        · rw [Nat.mod_eq_of_lt hc] at hdvd
          omega
        · rw [Nat.mod_eq_sub_mod hc, Nat.mod_eq_of_lt (by omega)] at hdvd
          omega
      · exact h1
    have hkN : k ≤ N := le_of_lt (by rw [hk]; exact Nat.mod_lt _ hNpos)
    refine ⟨k, hk1, by omega, ?_⟩
    apply slot_ord_inj n _ _ (write_pos_spec n p0 hn hp k).1 hd
    rw [(write_pos_spec n p0 hn hp k).2, ← hN, ← hadef, ← hbdef, hk]
    rw [Nat.add_mod_mod]
    have : a + (b + N - a) = b + N := by omega
    rw [this, Nat.add_mod_right, Nat.mod_eq_of_lt hb]

/-- If the dry run misses the dequeue slot for m steps, the first m cursor
positions (including the start) are pairwise distinct. -/
theorem write_pos_distinct (n : Nat) (p0 d : Nat × Nat) (hn : 0 < n)
    (hp : valid_pos n p0) (hd : valid_pos n d) (m : Nat)
    (hmiss : ∀ k, 1 ≤ k → k ≤ m → write_pos n p0 k ≠ d) :
    ∀ i j, i < j → j ≤ m → write_pos n p0 i ≠ write_pos n p0 j := by
  set N := n * STOP_SLOTS with hN
  have hNpos : 0 < N := by
    rw [hN, stop_slots_eq]
    omega
  have hmN : m < N := by
    by_contra hc
    obtain ⟨k, hk1, hkm, hkd⟩ :=
      write_pos_hits n p0 d hn hp hd m (by omega)
    exact hmiss k hk1 hkm hkd
  intro i j hij hjm heq
  have hoi := (write_pos_spec n p0 hn hp i).2
  have hoj := (write_pos_spec n p0 hn hp j).2
  rw [← hN] at hoi hoj
  have hords : (slot_ord p0 + i) % N = (slot_ord p0 + j) % N := by
    rw [← hoi, ← hoj, heq]
  have hmod : i % N = j % N :=
    Nat.ModEq.add_left_cancel' (slot_ord p0) hords
  rw [Nat.mod_eq_of_lt (by omega), Nat.mod_eq_of_lt (by omega)] at hmod
  omega

theorem segment_trb_count_eq : SEGMENT_TRB_COUNT = 254 := rfl

theorem wf_td_cons (t : xhci_trb) (rest : List xhci_trb)
    (h : wf_td (t :: rest)) :
    (rest = [] → t.chain = false) ∧
    (rest ≠ [] → t.chain = true ∧ wf_td rest) ∧
    t.trb_type ≠ XHCI_TRB_TYPE_LINK := by
  obtain ⟨hne, hall⟩ := h
  have h0 := hall 0 (by simp)
  simp only [list_nth] at h0
  refine ⟨?_, ?_, h0.2⟩
  · intro hrest
    subst hrest
    cases hc : t.chain
    · rfl
    · exfalso
      have := h0.1.mp hc
      simp at this
  · intro hrest
    have hlen : 0 < rest.length := List.length_pos.mpr hrest
    refine ⟨h0.1.mpr (by simp; omega), hrest, ?_⟩
    intro i hi
    have := hall (i + 1) (by simp; omega)
    simp only [list_nth_cons_succ] at this
    constructor
    · rw [this.1]
      constructor
      · intro hlt
        simp at hlt
        omega
      · intro hlt
        simp
        omega
    · exact this.2

theorem enq_phys_eq_slot_phys (r : xhci_trb_ring) :
    trb_ring_enqueue_phys r
      = ring_slot_phys r.segments (r.enqueue_segment, r.enqueue_trb) := rfl

/-- The enqueue advance of xhci_trb_ring_enqueue moves the cursor exactly
like the abstract ring_next and changes nothing else. -/
theorem advance_enqueue_spec (r : xhci_trb_ring)
    (hw : wf_ring_segments r.segments)
    (hv : valid_pos r.segments.length (r.enqueue_segment, r.enqueue_trb)) :
    advance_enqueue r
      = { r with
          enqueue_segment :=
            (ring_next r.segments.length
              (r.enqueue_segment, r.enqueue_trb)).1,
          enqueue_trb :=
            (ring_next r.segments.length
              (r.enqueue_segment, r.enqueue_trb)).2 } := by
  obtain ⟨hn, hlen, htype⟩ := hw
  obtain ⟨h1, h2⟩ := hv
  rw [stop_slots_eq] at h2
  have hcontent :
      enq_trb_content { r with enqueue_trb := r.enqueue_trb + 1 }
        = ring_content r.segments (r.enqueue_segment, r.enqueue_trb + 1) := rfl
  have htest := htype r.enqueue_segment h1 (r.enqueue_trb + 1)
    (by rw [segment_trb_count_eq]; omega)
  simp only [advance_enqueue]
  rw [hcontent]
  by_cases hlink : r.enqueue_trb + 1 = SEGMENT_TRB_COUNT - 1
  · have hcond : (ring_content r.segments
        (r.enqueue_segment, r.enqueue_trb + 1)).trb_type
          = XHCI_TRB_TYPE_LINK := htest.mpr hlink
    rw [if_pos hcond]
    rw [segment_trb_count_eq] at hlink
    unfold trb_ring_resolve_link ring_next
    rw [stop_slots_eq]
    have het : (r.enqueue_segment, r.enqueue_trb).2 + 1 = 253 := by
      dsimp only
      omega
    rw [if_pos het]
  · have hcond : ¬(ring_content r.segments
        (r.enqueue_segment, r.enqueue_trb + 1)).trb_type
          = XHCI_TRB_TYPE_LINK := fun hc => hlink (htest.mp hc)
    rw [if_neg hcond]
    rw [segment_trb_count_eq] at hlink
    unfold ring_next
    rw [stop_slots_eq]
    have het : ¬(r.enqueue_segment, r.enqueue_trb).2 + 1 = 253 := by
      dsimp only
      omega
    rw [if_neg het]

/-- The dry-run loop either lands the cursor td.length abstract steps ahead
with every intermediate position clear of the dequeue pointer, or reports
fullness and some intermediate position hits the dequeue pointer. -/
theorem enqueue_dry_run_spec (td : List xhci_trb) :
    ∀ (r : xhci_trb_ring),
    wf_ring_segments r.segments →
    valid_pos r.segments.length (r.enqueue_segment, r.enqueue_trb) →
    wf_td td →
    (enqueue_dry_run r td
        = some { r with
            enqueue_segment := (write_pos r.segments.length
              (r.enqueue_segment, r.enqueue_trb) td.length).1,
            enqueue_trb := (write_pos r.segments.length
              (r.enqueue_segment, r.enqueue_trb) td.length).2 } ∧
      (∀ k, 1 ≤ k → k ≤ td.length →
        ring_slot_phys r.segments (write_pos r.segments.length
          (r.enqueue_segment, r.enqueue_trb) k) ≠ r.dequeue))
    ∨ (enqueue_dry_run r td = none ∧
      ∃ k, 1 ≤ k ∧ k ≤ td.length ∧
        ring_slot_phys r.segments (write_pos r.segments.length
          (r.enqueue_segment, r.enqueue_trb) k) = r.dequeue) := by
  induction td with
  | nil =>
    intro r hw hv htd
    exact absurd rfl htd.1
  | cons t rest ih =>
    intro r hw hv htd
    have hn : 0 < r.segments.length := hw.1
    have hadv := advance_enqueue_spec r hw hv
    have hp1 : (advance_enqueue r).enqueue_segment
        = (ring_next r.segments.length
            (r.enqueue_segment, r.enqueue_trb)).1 := by rw [hadv]
    have hp2 : (advance_enqueue r).enqueue_trb
        = (ring_next r.segments.length
            (r.enqueue_segment, r.enqueue_trb)).2 := by rw [hadv]
    have hsegs : (advance_enqueue r).segments = r.segments := by rw [hadv]
    have hdeq : (advance_enqueue r).dequeue = r.dequeue := by rw [hadv]
    have hphys1 : trb_ring_enqueue_phys (advance_enqueue r)
        = ring_slot_phys r.segments (write_pos r.segments.length
            (r.enqueue_segment, r.enqueue_trb) 1) := by
      rw [enq_phys_eq_slot_phys, hsegs, hp1, hp2]
      rfl
    have hwtc := wf_td_cons t rest htd
    rw [show enqueue_dry_run r (t :: rest)
        = (if trb_ring_enqueue_phys (advance_enqueue r)
              = (advance_enqueue r).dequeue then none
           else if t.chain then enqueue_dry_run (advance_enqueue r) rest
           else some (advance_enqueue r)) from rfl]
    by_cases hhit : trb_ring_enqueue_phys (advance_enqueue r)
        = (advance_enqueue r).dequeue
    · rw [if_pos hhit]
      right
      refine ⟨rfl, 1, le_refl 1, by simp, ?_⟩
      rw [← hphys1, hhit, hdeq]
    · rw [if_neg hhit]
      rw [hdeq, hphys1] at hhit
      cases hrest : rest with
      | nil =>
        subst hrest
        rw [(hwtc.1 rfl), if_neg (by simp)]
        left
        constructor
        · rw [hadv]
          rfl
        · intro k hk1 hk2
          have hk : k = 1 := by
            simp at hk2
            omega
          subst hk
          exact hhit
      | cons t2 rest2 =>
        have hchain : t.chain = true := (hwtc.2.1 (by simp [hrest])).1
        have hwrest : wf_td rest := (hwtc.2.1 (by simp [hrest])).2
        rw [← hrest]
        rw [hchain, if_pos rfl]
        have hvadv : valid_pos (advance_enqueue r).segments.length
            ((advance_enqueue r).enqueue_segment,
             (advance_enqueue r).enqueue_trb) := by
          rw [hsegs, hp1, hp2]
          exact ring_next_valid _ _ hn hv
        have hwadv : wf_ring_segments (advance_enqueue r).segments := by
          rw [hsegs]
          exact ⟨hw.1, hw.2.1, hw.2.2⟩
        rcases ih (advance_enqueue r) hwadv hvadv hwrest with
          ⟨hsome, hmiss⟩ | ⟨hnone, k, hk1, hk2, hkhit⟩
        · left
          constructor
          · rw [hsome, hadv]
            have hsh : ∀ m, write_pos r.segments.length
                (ring_next r.segments.length
                  (r.enqueue_segment, r.enqueue_trb)) m
                = write_pos r.segments.length
                    (r.enqueue_segment, r.enqueue_trb) (m + 1) :=
              fun m => write_pos_shift _ _ m
            simp only [hsegs, hp1, hp2]
            rw [hsh rest.length]
            have : rest.length + 1 = (t :: rest).length := by simp
            rw [this]
          · intro k hk1 hk2
            cases Nat.eq_or_lt_of_le hk1 with
            | inl h1 =>
              rw [← h1]
              exact hhit
            | inr h1 =>
              have := hmiss (k - 1) (by omega)
                (by simp at hk2 ⊢; omega)
              rw [hsegs, hp1, hp2] at this
              rw [show ((ring_next r.segments.length
                  (r.enqueue_segment, r.enqueue_trb)).1,
                  (ring_next r.segments.length
                    (r.enqueue_segment, r.enqueue_trb)).2)
                  = ring_next r.segments.length
                      (r.enqueue_segment, r.enqueue_trb) from rfl] at this
              rw [write_pos_shift] at this
              rw [hdeq] at this
              rw [show k - 1 + 1 = k from by omega] at this
              exact this
        · right
          refine ⟨hnone, k + 1, by omega, by simp; omega, ?_⟩
          rw [hsegs, hp1, hp2] at hkhit
          rw [show ((ring_next r.segments.length
              (r.enqueue_segment, r.enqueue_trb)).1,
              (ring_next r.segments.length
                (r.enqueue_segment, r.enqueue_trb)).2)
              = ring_next r.segments.length
                  (r.enqueue_segment, r.enqueue_trb) from rfl] at hkhit
          rw [write_pos_shift] at hkhit
          rw [hdeq] at hkhit
          exact hkhit

theorem list_nth_ge {α : Type} (l : List α) (i : Nat) (d : α)
    (h : l.length ≤ i) : list_nth l i d = d := by
  induction l generalizing i with
  | nil => rfl
  | cons x xs ih =>
    cases i with
    | zero => simp at h
    | succ j => exact ih j (by simpa using h)

theorem ring_write_segments_length (r : xhci_trb_ring) (si ti : Nat)
    (t : xhci_trb) :
    (ring_write_trb r si ti t).segments.length = r.segments.length := by
  simp [ring_write_trb, list_upd_length]

theorem ring_write_enqueue_segment (r : xhci_trb_ring) (si ti : Nat)
    (t : xhci_trb) :
    (ring_write_trb r si ti t).enqueue_segment = r.enqueue_segment := rfl

theorem ring_write_enqueue_trb (r : xhci_trb_ring) (si ti : Nat)
    (t : xhci_trb) :
    (ring_write_trb r si ti t).enqueue_trb = r.enqueue_trb := rfl

theorem ring_write_dequeue (r : xhci_trb_ring) (si ti : Nat) (t : xhci_trb) :
    (ring_write_trb r si ti t).dequeue = r.dequeue := rfl

theorem ring_write_pcs (r : xhci_trb_ring) (si ti : Nat) (t : xhci_trb) :
    (ring_write_trb r si ti t).pcs = r.pcs := rfl

theorem ring_write_phys (r : xhci_trb_ring) (si ti : Nat) (t : xhci_trb)
    (j : Nat) :
    (list_nth (ring_write_trb r si ti t).segments j empty_segment).phys
      = (list_nth r.segments j empty_segment).phys := by
  unfold ring_write_trb
  by_cases hj : j = si
  · subst hj
    by_cases hr : j < r.segments.length
    · rw [list_nth_upd_eq _ _ _ _ hr]
    · rw [list_nth_ge _ _ _ (by rw [list_upd_length]; omega),
        list_nth_ge _ _ _ (by omega)]
  · rw [list_nth_upd_ne _ _ _ _ _ hj]

theorem ring_content_write (r : xhci_trb_ring) (si ti : Nat) (t : xhci_trb)
    (q : Nat × Nat) (hsi : si < r.segments.length)
    (hti : ti < (list_nth r.segments si empty_segment).trbs.length) :
    ring_content (ring_write_trb r si ti t).segments q
      = if q = (si, ti) then t else ring_content r.segments q := by
  unfold ring_content ring_write_trb
  obtain ⟨a, b⟩ := q
  by_cases ha : a = si
  · subst ha
    rw [list_nth_upd_eq _ _ _ _ hsi]
    by_cases hb : b = ti
    · subst hb
      rw [if_pos rfl]
      exact list_nth_upd_eq _ _ _ _ hti
    · rw [if_neg (by simp [hb])]
      exact list_nth_upd_ne _ _ _ _ _ hb
  · rw [list_nth_upd_ne _ _ _ _ _ ha, if_neg (by simp [ha])]

theorem wf_ring_segments_write (r : xhci_trb_ring) (si ti : Nat)
    (t : xhci_trb) (hw : wf_ring_segments r.segments)
    (hsi : si < r.segments.length) (hti : ti < SEGMENT_TRB_COUNT)
    (hmatch : t.trb_type = XHCI_TRB_TYPE_LINK ↔ ti = SEGMENT_TRB_COUNT - 1) :
    wf_ring_segments (ring_write_trb r si ti t).segments := by
  obtain ⟨hn, hlen, htype⟩ := hw
  have hL := ring_write_segments_length r si ti t
  refine ⟨by rw [hL]; exact hn, ?_, ?_⟩
  · intro j hj
    rw [hL] at hj
    unfold ring_write_trb
    by_cases hj' : j = si
    · subst hj'
      rw [list_nth_upd_eq _ _ _ _ hsi]
      show (list_upd _ ti t).length = _
      rw [list_upd_length]
      exact hlen j hj
    · rw [list_nth_upd_ne _ _ _ _ _ hj']
      exact hlen j hj
  · intro j hj i hi
    rw [hL] at hj
    have hcw := ring_content_write r si ti t (j, i) hsi
      (by rw [hlen si hsi]; exact hti)
    show (ring_content (ring_write_trb r si ti t).segments (j, i)).trb_type
        = XHCI_TRB_TYPE_LINK ↔ i = SEGMENT_TRB_COUNT - 1
    rw [hcw]
    by_cases hq : (j, i) = (si, ti)
    · rw [if_pos hq]
      have : i = ti := by
        have := congrArg Prod.snd hq
        simpa using this
      rw [this]
      exact hmatch
    · rw [if_neg hq]
      exact htype j hj i hi

/-- One copy-loop iteration: the cursor advances like ring_next, the TD TRB
lands at the old cursor slot with cycle = PCS, and every other usable slot
is untouched; ring geometry, physical addresses, the dequeue pointer and
well-formedness are preserved. -/
theorem replay_step_spec (r : xhci_trb_ring) (trb : xhci_trb)
    (hw : wf_ring_segments r.segments)
    (hv : valid_pos r.segments.length (r.enqueue_segment, r.enqueue_trb))
    (hnl : trb.trb_type ≠ XHCI_TRB_TYPE_LINK) :
    (replay_step r trb).segments.length = r.segments.length ∧
    (replay_step r trb).dequeue = r.dequeue ∧
    (∀ j, (list_nth (replay_step r trb).segments j empty_segment).phys
        = (list_nth r.segments j empty_segment).phys) ∧
    wf_ring_segments (replay_step r trb).segments ∧
    ((replay_step r trb).enqueue_segment, (replay_step r trb).enqueue_trb)
        = ring_next r.segments.length (r.enqueue_segment, r.enqueue_trb) ∧
    ring_content (replay_step r trb).segments
        (r.enqueue_segment, r.enqueue_trb) = { trb with cycle := r.pcs } ∧
    (∀ q : Nat × Nat, q ≠ (r.enqueue_segment, r.enqueue_trb) →
        q.2 ≠ SEGMENT_TRB_COUNT - 1 →
        ring_content (replay_step r trb).segments q
          = ring_content r.segments q) := by
  have h1 : r.enqueue_segment < r.segments.length := hv.1
  have h2 : r.enqueue_trb < 253 := by
    have := hv.2
    rw [stop_slots_eq] at this
    exact this
  have hlen := hw.2.1
  have htype := hw.2.2
  have hmatch1 : ({ trb with cycle := r.pcs } : xhci_trb).trb_type
      = XHCI_TRB_TYPE_LINK ↔ r.enqueue_trb = SEGMENT_TRB_COUNT - 1 := by
    rw [segment_trb_count_eq]
    constructor
    · intro hc
      exact absurd hc hnl
    · intro h
      omega
  have hw1 : wf_ring_segments
      (ring_write_trb r r.enqueue_segment r.enqueue_trb
        { trb with cycle := r.pcs }).segments :=
    wf_ring_segments_write r _ _ _ hw h1
      (by rw [segment_trb_count_eq]; omega) hmatch1
  have hL1 := ring_write_segments_length r r.enqueue_segment r.enqueue_trb
    { trb with cycle := r.pcs }
  have hcont1 : ∀ q, ring_content
      (ring_write_trb r r.enqueue_segment r.enqueue_trb
        { trb with cycle := r.pcs }).segments q
      = if q = (r.enqueue_segment, r.enqueue_trb)
        then { trb with cycle := r.pcs } else ring_content r.segments q :=
    fun q => ring_content_write r _ _ _ q h1
      (by rw [hlen _ h1, segment_trb_count_eq]; omega)
  have htest := htype r.enqueue_segment h1 (r.enqueue_trb + 1)
    (by rw [segment_trb_count_eq]; omega)
  have hlinkc : enq_trb_content
      { ring_write_trb r r.enqueue_segment r.enqueue_trb
          { trb with cycle := r.pcs } with
        enqueue_trb :=
          (ring_write_trb r r.enqueue_segment r.enqueue_trb
            { trb with cycle := r.pcs }).enqueue_trb + 1 }
      = ring_content r.segments (r.enqueue_segment, r.enqueue_trb + 1) := by
    show ring_content
        (ring_write_trb r r.enqueue_segment r.enqueue_trb
          { trb with cycle := r.pcs }).segments
        (r.enqueue_segment, r.enqueue_trb + 1) = _
    rw [hcont1 (r.enqueue_segment, r.enqueue_trb + 1)]
    rw [if_neg (by simp)]
  -- facts about the second write (setting the Link TRB cycle bit)
  have hW2 : ∀ t2 : xhci_trb, t2.trb_type = XHCI_TRB_TYPE_LINK →
      r.enqueue_trb + 1 = 253 →
      ∀ R : xhci_trb_ring,
      R.segments = (ring_write_trb r r.enqueue_segment r.enqueue_trb
        { trb with cycle := r.pcs }).segments →
      R.enqueue_segment = r.enqueue_segment →
      R.enqueue_trb = r.enqueue_trb + 1 →
      R.dequeue = r.dequeue →
      (ring_write_trb R R.enqueue_segment R.enqueue_trb t2).segments.length
          = r.segments.length ∧
      (∀ j, (list_nth (ring_write_trb R R.enqueue_segment R.enqueue_trb
            t2).segments j empty_segment).phys
          = (list_nth r.segments j empty_segment).phys) ∧
      wf_ring_segments (ring_write_trb R R.enqueue_segment R.enqueue_trb
        t2).segments ∧
      ring_content (ring_write_trb R R.enqueue_segment R.enqueue_trb
          t2).segments (r.enqueue_segment, r.enqueue_trb)
        = { trb with cycle := r.pcs } ∧
      (∀ q : Nat × Nat, q ≠ (r.enqueue_segment, r.enqueue_trb) →
        q.2 ≠ SEGMENT_TRB_COUNT - 1 →
        ring_content (ring_write_trb R R.enqueue_segment R.enqueue_trb
            t2).segments q = ring_content r.segments q) := by
    intro t2 ht2 hl R hRs hRes hRet hRdq
    have hRlen : R.segments.length = r.segments.length := by
      rw [hRs, hL1]
    have hRsi : R.enqueue_segment < R.segments.length := by
      rw [hRes, hRlen]
      exact h1
    have hRwf : wf_ring_segments R.segments := by
      rw [hRs]
      exact hw1
    have hRti : R.enqueue_trb < SEGMENT_TRB_COUNT := by
      rw [hRet, segment_trb_count_eq]
      omega
    have hmatch2 : t2.trb_type = XHCI_TRB_TYPE_LINK ↔
        R.enqueue_trb = SEGMENT_TRB_COUNT - 1 := by
      rw [hRet, segment_trb_count_eq]
      constructor
      · intro _
        omega
      · intro _
        exact ht2
    have hRtrbs : R.enqueue_trb
        < (list_nth R.segments R.enqueue_segment empty_segment).trbs.length := by
      rw [hRwf.2.1 R.enqueue_segment hRsi]
      exact hRti
    have hcont2 := fun q =>
      ring_content_write R R.enqueue_segment R.enqueue_trb t2 q hRsi hRtrbs
    have hne2 : ∀ q : Nat × Nat, q.2 ≠ 253 →
        q ≠ (R.enqueue_segment, R.enqueue_trb) := by
      intro q hq hc
      have := congrArg Prod.snd hc
      simp only at this
      rw [hRet] at this
      omega
    refine ⟨?_, ?_, ?_, ?_, ?_⟩
    · rw [ring_write_segments_length, hRlen]
    · intro j
      rw [ring_write_phys]
      rw [hRs, ring_write_phys]
    · exact wf_ring_segments_write R _ _ _ hRwf hRsi hRti hmatch2
    · rw [hcont2 (r.enqueue_segment, r.enqueue_trb)]
      rw [if_neg (hne2 _ (by omega))]
      rw [hRs, hcont1 (r.enqueue_segment, r.enqueue_trb)]
      rw [if_pos rfl]
    · intro q hq hq2
      rw [hcont2 q]
      rw [if_neg (hne2 q (by rw [segment_trb_count_eq] at hq2; omega))]
      rw [hRs, hcont1 q]
      rw [if_neg hq]
  -- the resolve-link epilogue, given semantic facts about its input
  have hfin : ∀ Y : xhci_trb_ring,
      Y.segments.length = r.segments.length →
      Y.dequeue = r.dequeue →
      (∀ j, (list_nth Y.segments j empty_segment).phys
          = (list_nth r.segments j empty_segment).phys) →
      wf_ring_segments Y.segments →
      Y.enqueue_segment = r.enqueue_segment →
      r.enqueue_trb + 1 = 253 →
      ring_content Y.segments (r.enqueue_segment, r.enqueue_trb)
        = { trb with cycle := r.pcs } →
      (∀ q : Nat × Nat, q ≠ (r.enqueue_segment, r.enqueue_trb) →
        q.2 ≠ SEGMENT_TRB_COUNT - 1 →
        ring_content Y.segments q = ring_content r.segments q) →
      ((trb_ring_resolve_link Y).segments.length = r.segments.length ∧
       (trb_ring_resolve_link Y).dequeue = r.dequeue ∧
       (∀ j, (list_nth (trb_ring_resolve_link Y).segments j
            empty_segment).phys
          = (list_nth r.segments j empty_segment).phys) ∧
       wf_ring_segments (trb_ring_resolve_link Y).segments ∧
       ((trb_ring_resolve_link Y).enqueue_segment,
         (trb_ring_resolve_link Y).enqueue_trb)
          = ring_next r.segments.length (r.enqueue_segment, r.enqueue_trb) ∧
       ring_content (trb_ring_resolve_link Y).segments
          (r.enqueue_segment, r.enqueue_trb) = { trb with cycle := r.pcs } ∧
       (∀ q : Nat × Nat, q ≠ (r.enqueue_segment, r.enqueue_trb) →
          q.2 ≠ SEGMENT_TRB_COUNT - 1 →
          ring_content (trb_ring_resolve_link Y).segments q
            = ring_content r.segments q)) := by
    intro Y hYlen hYdq hYphys hYwf hYes hl hYc0 hYfr
    have hres : trb_ring_resolve_link Y
        = { Y with
            enqueue_segment :=
              if Y.enqueue_segment + 1 < Y.segments.length then
                Y.enqueue_segment + 1
              else 0,
            enqueue_trb := 0 } := rfl
    rw [hres]
    refine ⟨hYlen, hYdq, hYphys, hYwf, ?_, hYc0, hYfr⟩
    unfold ring_next
    rw [stop_slots_eq]
    rw [if_pos (show (r.enqueue_segment, r.enqueue_trb).2 + 1 = 253 from hl)]
    rw [hYes, hYlen]
  simp only [replay_step]
  rw [hlinkc]
  split
  · next hlk =>
    have hl : r.enqueue_trb + 1 = 253 := by
      have := htest.mp hlk
      rw [segment_trb_count_eq] at this
      omega
    have hw2f := hW2
      { ring_content r.segments (r.enqueue_segment, r.enqueue_trb + 1) with
        cycle := r.pcs }
      hlk hl
      { ring_write_trb r r.enqueue_segment r.enqueue_trb
          { trb with cycle := r.pcs } with
        enqueue_trb :=
          (ring_write_trb r r.enqueue_segment r.enqueue_trb
            { trb with cycle := r.pcs }).enqueue_trb + 1 }
      rfl rfl rfl rfl
    split
    · next htc =>
      exact hfin _ hw2f.1 rfl hw2f.2.1 hw2f.2.2.1 rfl hl hw2f.2.2.2.1
        hw2f.2.2.2.2
    · next htc =>
      exact hfin _ hw2f.1 rfl hw2f.2.1 hw2f.2.2.1 rfl hl hw2f.2.2.2.1
        hw2f.2.2.2.2
  · next hnlk =>
    have hl' : r.enqueue_trb + 1 ≠ 253 := by
      intro hc
      exact hnlk (htest.mpr (by rw [segment_trb_count_eq]; omega))
    refine ⟨?_, ?_, ?_, ?_, ?_, ?_, ?_⟩
    · exact hL1
    · rfl
    · intro j
      exact ring_write_phys r _ _ _ j
    · exact hw1
    · show (r.enqueue_segment, r.enqueue_trb + 1)
        = ring_next r.segments.length (r.enqueue_segment, r.enqueue_trb)
      unfold ring_next
      rw [stop_slots_eq]
      rw [if_neg (show ¬(r.enqueue_segment, r.enqueue_trb).2 + 1 = 253
        from hl')]
    · show ring_content
        (ring_write_trb r r.enqueue_segment r.enqueue_trb
          { trb with cycle := r.pcs }).segments
        (r.enqueue_segment, r.enqueue_trb) = _
      rw [hcont1 _, if_pos rfl]
    · intro q hq hq2
      show ring_content
        (ring_write_trb r r.enqueue_segment r.enqueue_trb
          { trb with cycle := r.pcs }).segments q = _
      rw [hcont1 q, if_neg hq]

/-- The copy loop advances the cursor td.length abstract steps, preserves
geometry, physical addresses, dequeue pointer and well-formedness, and only
touches the written slots and the Link slots. -/
theorem enqueue_replay_spec (td : List xhci_trb) :
    ∀ (r : xhci_trb_ring),
    wf_ring_segments r.segments →
    valid_pos r.segments.length (r.enqueue_segment, r.enqueue_trb) →
    wf_td td →
    (enqueue_replay r td).segments.length = r.segments.length ∧
    (enqueue_replay r td).dequeue = r.dequeue ∧
    (∀ j, (list_nth (enqueue_replay r td).segments j empty_segment).phys
        = (list_nth r.segments j empty_segment).phys) ∧
    wf_ring_segments (enqueue_replay r td).segments ∧
    ((enqueue_replay r td).enqueue_segment,
      (enqueue_replay r td).enqueue_trb)
        = write_pos r.segments.length (r.enqueue_segment, r.enqueue_trb)
            td.length ∧
    (∀ q : Nat × Nat, q.2 ≠ SEGMENT_TRB_COUNT - 1 →
        (∀ k, k < td.length →
          q ≠ write_pos r.segments.length
              (r.enqueue_segment, r.enqueue_trb) k) →
        ring_content (enqueue_replay r td).segments q
          = ring_content r.segments q) := by
  induction td with
  | nil =>
    intro r hw hv htd
    exact absurd rfl htd.1
  | cons t rest ih =>
    intro r hw hv htd
    have hn : 0 < r.segments.length := hw.1
    have hwtc := wf_td_cons t rest htd
    have hstep := replay_step_spec r t hw hv hwtc.2.2
    have hslen := hstep.1
    have hsdq := hstep.2.1
    have hsphys := hstep.2.2.1
    have hswf := hstep.2.2.2.1
    have hspos := hstep.2.2.2.2.1
    have hsc0 := hstep.2.2.2.2.2.1
    have hsfr := hstep.2.2.2.2.2.2
    have hsvalid : valid_pos (replay_step r t).segments.length
        ((replay_step r t).enqueue_segment,
         (replay_step r t).enqueue_trb) := by
      rw [hslen, hspos]
      exact ring_next_valid _ _ hn hv
    cases hrest : rest with
    | nil =>
      subst hrest
      have hchain : t.chain = false := hwtc.1 rfl
      have hrepl : enqueue_replay r [t] = replay_step r t := by
        simp [enqueue_replay, hchain]
      rw [hrepl]
      refine ⟨hslen, hsdq, hsphys, hswf, ?_, ?_⟩
      · rw [hspos]
        rfl
      · intro q hq2 hqk
        refine hsfr q ?_ hq2
        exact hqk 0 (by simp)
    | cons t2 rest2 =>
      have hrne : rest ≠ [] := by simp [hrest]
      rw [← hrest] at *
      have hchain : t.chain = true := (hwtc.2.1 hrne).1
      have hwrest : wf_td rest := (hwtc.2.1 hrne).2
      have hrepl : enqueue_replay r (t :: rest)
          = enqueue_replay (replay_step r t) rest := by
        simp [enqueue_replay, hchain]
      rw [hrepl]
      have hihm := ih (replay_step r t) hswf hsvalid hwrest
      have hsh : ∀ m, write_pos (replay_step r t).segments.length
          ((replay_step r t).enqueue_segment,
           (replay_step r t).enqueue_trb) m
          = write_pos r.segments.length
              (r.enqueue_segment, r.enqueue_trb) (m + 1) := by
        intro m
        rw [hslen, hspos]
        exact write_pos_shift _ _ m
      refine ⟨?_, ?_, ?_, hihm.2.2.2.1, ?_, ?_⟩
      · rw [hihm.1, hslen]
      · rw [hihm.2.1, hsdq]
      · intro j
        rw [hihm.2.2.1 j, hsphys j]
      · rw [hihm.2.2.2.2.1, hsh rest.length]
        rfl
      · intro q hq2 hqk
        rw [hihm.2.2.2.2.2 q hq2 ?later]
        · exact hsfr q (hqk 0 (by simp)) hq2
        case later =>
          intro k hk
          rw [hsh k]
          exact hqk (k + 1) (by simp; omega)

/-- When the written cursor positions are pairwise distinct, the copy loop
leaves every TD TRB in its slot (up to the cycle bit, which is rewritten to
the PCS). -/
theorem enqueue_replay_content (td : List xhci_trb) :
    ∀ (r : xhci_trb_ring),
    wf_ring_segments r.segments →
    valid_pos r.segments.length (r.enqueue_segment, r.enqueue_trb) →
    wf_td td →
    (∀ i j, i < j → j ≤ td.length →
      write_pos r.segments.length (r.enqueue_segment, r.enqueue_trb) i
        ≠ write_pos r.segments.length (r.enqueue_segment, r.enqueue_trb) j) →
    ∀ i, i < td.length →
      trb_matches_mod_cycle
        (ring_content (enqueue_replay r td).segments
          (write_pos r.segments.length (r.enqueue_segment, r.enqueue_trb) i))
        (list_nth td i xhci_trb_clean) := by
  induction td with
  | nil =>
    intro r hw hv htd
    exact absurd rfl htd.1
  | cons t rest ih =>
    intro r hw hv htd hdist i hi
    have hn : 0 < r.segments.length := hw.1
    have hwtc := wf_td_cons t rest htd
    have hstep := replay_step_spec r t hw hv hwtc.2.2
    have hslen := hstep.1
    have hspos := hstep.2.2.2.2.1
    have hswf := hstep.2.2.2.1
    have hsc0 := hstep.2.2.2.2.2.1
    have hsvalid : valid_pos (replay_step r t).segments.length
        ((replay_step r t).enqueue_segment,
         (replay_step r t).enqueue_trb) := by
      rw [hslen, hspos]
      exact ring_next_valid _ _ hn hv
    have hp02 : (r.enqueue_segment, r.enqueue_trb).2
        ≠ SEGMENT_TRB_COUNT - 1 := by
      have := hv.2
      rw [stop_slots_eq] at this
      rw [segment_trb_count_eq]
      dsimp only
      omega
    have hsh : ∀ m, write_pos (replay_step r t).segments.length
        ((replay_step r t).enqueue_segment,
         (replay_step r t).enqueue_trb) m
        = write_pos r.segments.length
            (r.enqueue_segment, r.enqueue_trb) (m + 1) := by
      intro m
      rw [hslen, hspos]
      exact write_pos_shift _ _ m
    cases hrest : rest with
    | nil =>
      subst hrest
      have hchain : t.chain = false := hwtc.1 rfl
      have hrepl : enqueue_replay r [t] = replay_step r t := by
        simp [enqueue_replay, hchain]
      have hi0 : i = 0 := by
        simp at hi
        omega
      subst hi0
      rw [hrepl]
      show trb_matches_mod_cycle
        (ring_content (replay_step r t).segments
          (r.enqueue_segment, r.enqueue_trb)) t
      rw [hsc0]
      rfl
    | cons t2 rest2 =>
      have hrne : rest ≠ [] := by simp [hrest]
      rw [← hrest] at *
      have hchain : t.chain = true := (hwtc.2.1 hrne).1
      have hwrest : wf_td rest := (hwtc.2.1 hrne).2
      have hrepl : enqueue_replay r (t :: rest)
          = enqueue_replay (replay_step r t) rest := by
        simp [enqueue_replay, hchain]
      rw [hrepl]
      cases i with
      | zero =>
        show trb_matches_mod_cycle
          (ring_content (enqueue_replay (replay_step r t) rest).segments
            (r.enqueue_segment, r.enqueue_trb)) t
        have hrs := enqueue_replay_spec rest (replay_step r t) hswf
          hsvalid hwrest
        rw [hrs.2.2.2.2.2 (r.enqueue_segment, r.enqueue_trb) hp02 ?nowrite]
        · rw [hsc0]
          rfl
        case nowrite =>
          intro k hk
          rw [hsh k]
          exact hdist 0 (k + 1) (by omega) (by simp; omega)
      | succ i' =>
        have hdist' : ∀ a b, a < b → b ≤ rest.length →
            write_pos (replay_step r t).segments.length
              ((replay_step r t).enqueue_segment,
               (replay_step r t).enqueue_trb) a
            ≠ write_pos (replay_step r t).segments.length
                ((replay_step r t).enqueue_segment,
                 (replay_step r t).enqueue_trb) b := by
          intro a b hab hbl
          rw [hsh a, hsh b]
          exact hdist (a + 1) (b + 1) (by omega) (by simp; omega)
        have := ih (replay_step r t) hswf hsvalid hwrest hdist' i'
          (by simp at hi; omega)
        rw [hsh i'] at this
        exact this

/-- C1: xhci_trb_ring_enqueue is transactional.  It returns EAGAIN exactly
when some step of the dry-run advance would land the enqueue pointer on the
dequeue pointer, and then the ring state (enqueue segment, enqueue TRB
pointer, PCS - the whole record) is exactly the entry state.  On EOK the
reported address is the first TRB's slot, the dequeue pointer is untouched,
the enqueue cursor ends td.length slots further (following Link TRBs), the
final enqueue position does not sit on the dequeue pointer, and every TD
TRB is stored in its slot unchanged except for the cycle bit. -/
theorem xhci_trb_ring_enqueue_correct (r : xhci_trb_ring)
    (td : List xhci_trb) (hw : wf_ring r) (hdq : dequeue_on_ring r)
    (htd : wf_td td) :
    (xhci_trb_ring_enqueue r td = enqueue_result.again r ↔
      ∃ k, 1 ≤ k ∧ k ≤ td.length ∧
        ring_slot_phys r.segments
          (write_pos r.segments.length
            (r.enqueue_segment, r.enqueue_trb) k) = r.dequeue) ∧
    (∀ phys r', xhci_trb_ring_enqueue r td = enqueue_result.ok phys r' →
      phys = trb_ring_enqueue_phys r ∧
      r'.dequeue = r.dequeue ∧
      (r'.enqueue_segment, r'.enqueue_trb)
        = write_pos r.segments.length (r.enqueue_segment, r.enqueue_trb)
            td.length ∧
      trb_ring_enqueue_phys r' ≠ r.dequeue ∧
      (∀ i, i < td.length →
        trb_matches_mod_cycle
          (ring_content r'.segments
            (write_pos r.segments.length
              (r.enqueue_segment, r.enqueue_trb) i))
          (list_nth td i xhci_trb_clean))) := by
  obtain ⟨hws, hv⟩ := hw
  have hn : 0 < r.segments.length := hws.1
  have hlen1 : 1 ≤ td.length := by
    cases td with
    | nil => exact absurd rfl htd.1
    | cons a l => simp
  rcases enqueue_dry_run_spec td r hws hv htd with
    ⟨hsome, hmiss⟩ | ⟨hnone, k, hk1, hk2, hkhit⟩
  · have henq : xhci_trb_ring_enqueue r td
        = enqueue_result.ok (trb_ring_enqueue_phys r)
            (enqueue_replay r td) := by
      unfold xhci_trb_ring_enqueue
      rw [hsome]
    constructor
    · rw [henq]
      constructor
      · intro hc
        exact enqueue_result.noConfusion hc
      · rintro ⟨k, hk1, hk2, hkhit⟩
        exact absurd hkhit (hmiss k hk1 hk2)
    · intro phys r' hok
      rw [henq] at hok
      injection hok with hph hrr
      subst hrr
      have hrs := enqueue_replay_spec td r hws hv htd
      have hphys_pres : ∀ p : Nat × Nat,
          ring_slot_phys (enqueue_replay r td).segments p
            = ring_slot_phys r.segments p := by
        intro p
        unfold ring_slot_phys
        rw [hrs.2.2.1 p.1]
      obtain ⟨d, hdval, hdphys⟩ := hdq
      have hmiss' : ∀ k, 1 ≤ k → k ≤ td.length →
          write_pos r.segments.length
            (r.enqueue_segment, r.enqueue_trb) k ≠ d := by
        intro k h1 h2 heq
        apply hmiss k h1 h2
        rw [heq, hdphys]
      have hdist := write_pos_distinct r.segments.length
        (r.enqueue_segment, r.enqueue_trb) d hn hv hdval td.length hmiss'
      refine ⟨hph.symm, hrs.2.1, hrs.2.2.2.2.1, ?_, ?_⟩
      · rw [enq_phys_eq_slot_phys]
        rw [show ((enqueue_replay r td).enqueue_segment,
            (enqueue_replay r td).enqueue_trb)
            = write_pos r.segments.length
                (r.enqueue_segment, r.enqueue_trb) td.length
          from hrs.2.2.2.2.1]
        rw [hphys_pres]
        exact hmiss td.length hlen1 (le_refl _)
      · intro i hi
        exact enqueue_replay_content td r hws hv htd
          (fun a b hab hbl => hdist a b hab hbl) i hi
  · have henq : xhci_trb_ring_enqueue r td = enqueue_result.again r := by
      unfold xhci_trb_ring_enqueue
      rw [hnone]
    constructor
    · rw [henq]
      exact ⟨fun _ => ⟨k, hk1, hk2, hkhit⟩, fun _ => rfl⟩
    · intro phys r' hok
      rw [henq] at hok
      exact enqueue_result.noConfusion hok

/-- C1 witness: a fresh one-segment ring (Link TRB with TC at slot 253,
dequeue at slot 0) accepting a single-TRB TD. -/
theorem xhci_trb_ring_enqueue_correct_witness :
    (xhci_trb_ring_enqueue example_ring example_td
      = enqueue_result.again example_ring
      ↔ ∃ k, 1 ≤ k ∧ k ≤ example_td.length ∧
          ring_slot_phys example_ring.segments
            (write_pos example_ring.segments.length
              (example_ring.enqueue_segment, example_ring.enqueue_trb) k)
            = example_ring.dequeue) :=
  (xhci_trb_ring_enqueue_correct example_ring example_td
    (by decide) ⟨(0, 0), by decide, rfl⟩ (by decide)).1
